import Mathlib

/-!
Shallow embedding of the `floral` crate (floral formula parser and renderer).

The embedding follows `src/floral.rs` and `src/parse.rs`:
pure Rust functions become Lean functions, `Result<T, Error>` becomes
`Except ErrorKind T`, and the `Display` implementations that can reach a
`panic!` are embedded as `Option String` (`none` marks the panic).
Machine integers (`u32`, `usize`) are embedded as `Nat`; where Rust
subtraction on `usize` could underflow the claims only concern inputs on
which no underflow happens, and truncating `Nat` subtraction is used.
-/

deriving instance DecidableEq for Except

namespace Floral

/-- Error kinds, from `src/error.rs` (`ErrorKind::FromStr` and
`ErrorKind::ParseInt` are the two kinds the embedded code can produce). -/
inductive ErrorKind where
  | fromStrKind (msg : String) : ErrorKind
  | parseIntKind (msg : String) : ErrorKind
deriving DecidableEq, Repr

/-- Result alias, from `src/error.rs`. -/
abbrev FResult (α : Type) := Except ErrorKind α

/-- The specific kind of bilateral symmetry (`BilateralType` in `src/floral.rs`). -/
inductive BilateralType where
  | up | down | left | right | upleft | upright | downleft | downright
deriving DecidableEq, Repr

/-- The floral symmetry of a flower (`Symmetry` in `src/floral.rs`). -/
inductive Symmetry where
  | radial
  | bilateral (b : BilateralType)
  | asymmetry
  | spiral
  | disymmetric
deriving DecidableEq, Repr

/-- The number of parts in a floral organ (`FloralPartNumber` in `src/floral.rs`).
The Rust `Fractional(f64)` variant is only ever constructed with the value
`0.5` (the parser admits only the token `"0.5"`) and is displayed as `"½"`,
so it is embedded as a payload-free constructor. -/
inductive FloralPartNumber where
  | finite (n : Nat)
  | fractional
  | infinite
deriving DecidableEq, Repr

/-- The part of the flower (`Part` in `src/floral.rs`). -/
inductive Part where
  | tepals | calyx | petals | stamens | carpels
deriving DecidableEq, Repr

/-- Sterility status of an organ (`Sterile` in `src/floral.rs`). -/
inductive Sterile where
  | fertile | sterile
deriving DecidableEq, Repr

/-- Ovary position (`Ovary` in `src/floral.rs`). -/
inductive Ovary where
  | superior | inferior | both
deriving DecidableEq, Repr

/-- Fruit types (`Fruit` in `src/floral.rs`). -/
inductive Fruit where
  | achene | berry | berrylets | capsule | caryopsis | ddrupe | drupe
  | drupelets | follicle | ipod | legume | loment | nut | aggregateOfNuts
  | pome | samara | schizocarp | silique | utricle | none
deriving DecidableEq, Repr

/-- A whorl within a floral part (`Whorl` in `src/floral.rs`). -/
structure Whorl where
  number : Option FloralPartNumber
  min : Option FloralPartNumber
  max : Option FloralPartNumber
  sterile : Sterile
  connation : Bool
  connation_variation : Bool
deriving DecidableEq, Repr

/-- An individual floral part (`FloralPart` in `src/floral.rs`).
The field defaults are the `Default` impl at `src/floral.rs:999`. -/
structure FloralPart where
  part : Part := Part.tepals
  connate : Bool := false
  connation_variation : Bool := false
  whorls : List Whorl := []
  ovary : Option Ovary := Option.none
deriving DecidableEq, Repr

/-- Adnation between different floral parts (`Adnation` in `src/floral.rs`);
the derived `Default` is `variation = false`, `parts = None`. -/
structure Adnation where
  variation : Bool := false
  parts : Option (List Part) := Option.none
deriving DecidableEq, Repr

/-- The total floral formula (`Formula` in `src/floral.rs`); derived `Default`. -/
structure Formula where
  symmetry : List Symmetry := []
  tepals : Option FloralPart := Option.none
  sepals : Option FloralPart := Option.none
  petals : Option FloralPart := Option.none
  stamens : Option FloralPart := Option.none
  carpels : Option FloralPart := Option.none
  fruit : List Fruit := []
  adnation : Adnation := {}
deriving DecidableEq, Repr

/-- Adnation setter `Adnation::set_variation` (mutation embedded as copy). -/
def Adnation.set_variation (self : Adnation) (variation : Bool) : Adnation :=
  { self with variation := variation }

/-- Adnation setter `Adnation::add_part`: pushes onto the optional vector,
initialising it with `[]` first when it is `None`. -/
def Adnation.add_part (self : Adnation) (part : Part) : Adnation :=
  match self.parts with
  | Option.none => { self with parts := some [part] }
  | some ps => { self with parts := some (ps ++ [part]) }

/-- Constructor `Whorl::new` (`src/floral.rs:918`): no validation is
performed; the boolean `sterile` is converted to the `Sterile` enum. -/
def Whorl.new (number min max : Option FloralPartNumber)
    (sterile connation connation_variation : Bool) : Whorl :=
  { number := number, min := min, max := max,
    sterile := if sterile then Sterile.sterile else Sterile.fertile,
    connation := connation, connation_variation := connation_variation }

/-- FloralPart setter `set_part`. -/
def FloralPart.set_part (self : FloralPart) (part : Part) : FloralPart :=
  { self with part := part }

/-- FloralPart setter `set_connation`. -/
def FloralPart.set_connation (self : FloralPart) (connation : Bool) : FloralPart :=
  { self with connate := connation }

/-- FloralPart setter `set_connation_variation`. -/
def FloralPart.set_connation_variation (self : FloralPart) (cv : Bool) : FloralPart :=
  { self with connation_variation := cv }

/-- FloralPart setter `set_ovary`. -/
def FloralPart.set_ovary (self : FloralPart) (ovary : Option Ovary) : FloralPart :=
  { self with ovary := ovary }

/-- FloralPart `add_whorl`: pushes a whorl. -/
def FloralPart.add_whorl (self : FloralPart) (whorl : Whorl) : FloralPart :=
  { self with whorls := self.whorls ++ [whorl] }

/-! ## Renderers (the `Display` impls of `src/floral.rs`) -/

/-- A one-character string. -/
def cStr (c : Char) : String := ⟨[c]⟩

/-- Rust `Vec::join(sep)` over strings. -/
def joinSep (sep : String) : List String → String
  | [] => ""
  | [x] => x
  | x :: xs => x ++ sep ++ joinSep sep xs

/-- Rust loop pushing `n` copies of a character. -/
def repeatChar (n : Nat) (c : Char) : String := ⟨List.replicate n c⟩

/-- Display for `BilateralType` (`src/floral.rs:74`). -/
def BilateralType.fmt : BilateralType → String
  | .up => "↑"
  | .down => "↓"
  | .left => "←"
  | .right => "→"
  | .upleft => "↖"
  | .upright => "↗"
  | .downleft => "↙"
  | .downright => "↘"

/-- Display for `Symmetry` (`src/floral.rs:110`). -/
def Symmetry.fmt : Symmetry → String
  | .radial => "*"
  | .bilateral b => "X(" ++ b.fmt ++ ")"
  | .asymmetry => "↯"
  | .spiral => "↻"
  | .disymmetric => "↔"

/-- Display for `FloralPartNumber` (`src/floral.rs:193`). -/
def FloralPartNumber.fmt : FloralPartNumber → String
  | .finite u => Nat.repr u
  | .fractional => "½"
  | .infinite => "∞"

/-- Display for `Sterile` (`src/floral.rs:742`). -/
def Sterile.fmt : Sterile → String
  | .fertile => ""
  | .sterile => "•"

/-- Display for `Part` (`src/floral.rs:723`). -/
def Part.fmt : Part → String
  | .tepals => "T"
  | .calyx => "K"
  | .petals => "C"
  | .stamens => "A"
  | .carpels => "G"

/-- Display for `Fruit` (`src/floral.rs:777`). -/
def Fruit.fmt : Fruit → String
  | .achene => "achene"
  | .berry => "berry"
  | .berrylets => "berrylets"
  | .capsule => "capsule"
  | .caryopsis => "caryopsis"
  | .ddrupe => "dehiscent drupe"
  | .drupe => "drupe"
  | .drupelets => "drupelets"
  | .follicle => "follicle"
  | .ipod => "indehiscent pod"
  | .legume => "legume"
  | .loment => "loment"
  | .nut => "nut"
  | .aggregateOfNuts => "aggregate of nuts"
  | .pome => "pome"
  | .samara => "samara"
  | .schizocarp => "schizocarp"
  | .silique => "silique"
  | .utricle => "utricle"
  | .none => "no fruit"

/-- The final `match (connation, connation_variation)` of `Display for
Whorl`: parenthesis wrapping, with the `(false, true)` Rust `panic!`
embedded as `none`. -/
def Whorl.fmtWrap (self : Whorl) (whorl : String) : Option String :=
  match self.connation, self.connation_variation with
  | true, true => some ("(" ++ whorl ++ "]")
  | true, false => some ("(" ++ whorl ++ ")")
  | false, true => Option.none
  | false, false => some whorl

/-- Display for `Whorl` (`src/floral.rs:967`).  The Rust impl can reach two
`panic!` calls (number/min/max in an invalid shape, and
`connation_variation` without `connation`); both are embedded as `none`. -/
def Whorl.fmt (self : Whorl) : Option String :=
  match self.number, self.min, self.max with
  | some n, Option.none, Option.none =>
    Whorl.fmtWrap self (n.fmt ++ self.sterile.fmt)
  | Option.none, some mi, some ma =>
    Whorl.fmtWrap self (mi.fmt ++ "-" ++ ma.fmt ++ self.sterile.fmt)
  | _, _, _ => Option.none

/-- The combining low line U+0332 emitted for a superior ovary. -/
def lowline : Char := Char.ofNat 0x332

/-- The combining overline U+0305 emitted for an inferior ovary. -/
def overline : Char := Char.ofNat 0x305

/-- The `let part = ...` block of `Display for FloralPart`
(`src/floral.rs:1021`): the base letter with the ovary diacritic appended. -/
def FloralPart.letterWithOvary (self : FloralPart) : String :=
  match self.ovary with
  | some Ovary.superior => self.part.fmt ++ cStr lowline
  | some Ovary.inferior => self.part.fmt ++ cStr overline
  | some Ovary.both => self.part.fmt ++ cStr overline ++ cStr lowline
  | Option.none => self.part.fmt

/-- Display for `FloralPart` (`src/floral.rs:1012`): renders every whorl
(propagating the whorl panic as `none`), joins them with `+`, prefixes the
letter/diacritic, and wraps according to the connation flags. -/
def FloralPart.fmt (self : FloralPart) : Option String := do
  let whorl_strings ← self.whorls.mapM Whorl.fmt
  let part := self.letterWithOvary
  match self.connate, self.connation_variation with
  | true, true => some ("(" ++ part ++ joinSep "+" whorl_strings ++ "]")
  | true, false => some ("(" ++ part ++ joinSep "+" whorl_strings ++ ")")
  | false, _ => some (part ++ joinSep "+" whorl_strings)

/-! ## The adnation bracket renderer -/

/-- The per-part column record used by the bracket renderer
(`AdnationIndex` in `src/floral.rs:355`). -/
structure AdnationIndex where
  variation : Bool := false
  tepals : Option Nat := Option.none
  sepals : Option Nat := Option.none
  petals : Option Nat := Option.none
  stamens : Option Nat := Option.none
  carpels : Option Nat := Option.none
deriving DecidableEq, Repr

/-- Setter `AdnationIndex::set_adnation_status` (`src/floral.rs:372`). -/
def AdnationIndex.set_adnation_status (self : AdnationIndex) (part : Part)
    (index : Nat) : AdnationIndex :=
  match part with
  | Part.tepals => { self with tepals := some index }
  | Part.calyx => { self with sepals := some index }
  | Part.petals => { self with petals := some index }
  | Part.stamens => { self with stamens := some index }
  | Part.carpels => { self with carpels := some index }

/-- The constant (invariant-fusion) glyph set (`src/floral.rs:391`). -/
def AdnationIndex.CONSTANT : List Char := ['╰', '╯', '─', '┴']

/-- The variable-fusion glyph set (`src/floral.rs:395`). -/
def AdnationIndex.VARIABLE : List Char := ['└', '┘', '┄', '┴']

/-- The `3..` arm of the bracket renderer loop (`src/floral.rs:435`):
having already emitted the leading spaces and the open-left glyph at the
first recorded column (`prev`), emit for each following column the fill
glyphs (`column - 1 - prev` of them, the Rust `merged[i-1]..merged[i]-1`
range), a junction glyph at each interior column, and the close-right glyph
at the last column. -/
def adnGo (cs : List Char) (prev : Nat) : List Nat → String
  | [] => ""
  | [last] => repeatChar ((last - 1) - prev) (cs.getD 2 ' ') ++ cStr (cs.getD 1 ' ')
  | x :: rest =>
    repeatChar ((x - 1) - prev) (cs.getD 2 ' ') ++ cStr (cs.getD 3 ' ') ++ adnGo cs x rest

/-- The `merged`/`flatten` lines of `Display for AdnationIndex`
(`src/floral.rs:403` and `:418`): the five option fields in canonical
organ order, with the `None` entries dropped. -/
def AdnationIndex.mergedCols (self : AdnationIndex) : List Nat :=
  [self.tepals, self.sepals, self.petals, self.stamens, self.carpels].filterMap id

/-- The `character_set` selection of `Display for AdnationIndex`
(`src/floral.rs:412`). -/
def charSet (variation : Bool) : List Char :=
  if variation then AdnationIndex.VARIABLE else AdnationIndex.CONSTANT

/-- Display for `AdnationIndex` (`src/floral.rs:400`): merges the five
option fields in canonical order, flattens, and draws the bracket line.
Rust's `usize` ranges `a..b-1` appear as truncating `Nat` subtraction
`(b - 1) - a`; for unsorted columns Rust would underflow where this
truncates, and every theorem below assumes strictly increasing columns. -/
def AdnationIndex.fmt (self : AdnationIndex) : String :=
  let character_set := charSet self.variation
  let merged_only_some := AdnationIndex.mergedCols self
  match merged_only_some with
  | [] => ""
  | [_] => ""
  | [a, b] =>
    repeatChar a ' ' ++ cStr (character_set.getD 0 ' ')
      ++ repeatChar ((b - 1) - a) (character_set.getD 2 ' ')
      ++ cStr (character_set.getD 1 ' ')
  | a :: rest =>
    repeatChar a ' ' ++ cStr (character_set.getD 0 ' ') ++ adnGo character_set a rest

/-! ## The Formula renderer -/

/-- Helper closure `update_adnation_vec_and_format_index`
(`src/floral.rs:499`): when the part is in the adnation set, record the
running format index for it, adding one when the part is individually
connate (to skip its opening parenthesis). -/
def update_adnation_vec_and_format_index (adnation_vec : List Part) (part : Part)
    (floral_part : FloralPart) (format_index : Nat)
    (adnation_status : AdnationIndex) : AdnationIndex :=
  if adnation_vec.contains part then
    if floral_part.connate then
      adnation_status.set_adnation_status part (format_index + 1)
    else
      adnation_status.set_adnation_status part format_index
  else adnation_status

/-- Display for `Formula` (`src/floral.rs:474`).  The three perianth match
arms that are `panic!` in Rust are embedded as `none`; whorl-level panics
propagate from `FloralPart.fmt`.  Character counts (`chars().count()`)
are `String.data.length`. -/
def Formula.fmt (self : Formula) : Option String := do
  let sym := joinSep " or " (self.symmetry.map Symmetry.fmt)
  let format_index : Nat := sym.data.length + 1
  let adnation_vec := self.adnation.parts.getD []
  let adnation_status : AdnationIndex := { variation := self.adnation.variation }
  let (calyx_perianth_or_tepals, format_index, adnation_status) ←
    (match self.tepals, self.petals, self.sepals with
    | Option.none, Option.none, Option.none => Option.none
    | Option.none, Option.none, some _ => Option.none
    | Option.none, some _, Option.none => Option.none
    | Option.none, some p, some s => do
      let s_str ← FloralPart.fmt s
      let p_str ← FloralPart.fmt p
      let calyx_string := "," ++ s_str
      let petals_string := "," ++ p_str
      let adnation_status := update_adnation_vec_and_format_index adnation_vec
        Part.calyx s format_index adnation_status
      let format_index := format_index + calyx_string.data.length
      let adnation_status := update_adnation_vec_and_format_index adnation_vec
        Part.petals p format_index adnation_status
      let format_index := format_index + petals_string.data.length
      some (calyx_string ++ petals_string, format_index, adnation_status)
    | some t, Option.none, Option.none => do
      let t_str ← FloralPart.fmt t
      let adnation_status := update_adnation_vec_and_format_index adnation_vec
        Part.tepals t format_index adnation_status
      let tepal_string := "," ++ t_str
      let format_index := format_index + tepal_string.data.length
      some (tepal_string, format_index, adnation_status)
    | some _, Option.none, some _ => Option.none
    | some _, some _, Option.none => Option.none
    | some t, some p, some s => do
      let t_str ← FloralPart.fmt t
      let s_str ← FloralPart.fmt s
      let p_str ← FloralPart.fmt p
      let tepal_string := "," ++ t_str
      let calyx_string := "[or " ++ s_str
      let petals_string := "," ++ p_str ++ "]"
      let adnation_status := update_adnation_vec_and_format_index adnation_vec
        Part.tepals t format_index adnation_status
      let format_index := format_index + tepal_string.data.length
      let format_index := format_index + 3
      let adnation_status := update_adnation_vec_and_format_index adnation_vec
        Part.calyx s format_index adnation_status
      let format_index := format_index + calyx_string.data.length
      let adnation_status := update_adnation_vec_and_format_index adnation_vec
        Part.petals p format_index adnation_status
      let format_index := format_index + petals_string.data.length
      let format_index := format_index - 3
      some (tepal_string ++ calyx_string ++ petals_string, format_index, adnation_status)
    : Option (String × Nat × AdnationIndex))
  let (anthers, format_index, adnation_status) ←
    (match self.stamens with
    | some a => do
      let a_str ← FloralPart.fmt a
      let anthers_string := "," ++ a_str
      let adnation_status := update_adnation_vec_and_format_index adnation_vec
        Part.stamens a format_index adnation_status
      let format_index := format_index + anthers_string.data.length
      some (anthers_string, format_index, adnation_status)
    | Option.none => some ("", format_index, adnation_status)
    : Option (String × Nat × AdnationIndex))
  let (carpels_string, adnation_status) ←
    (match self.carpels with
    | some c => do
      let c_str ← FloralPart.fmt c
      let carpels_string := "," ++ c_str
      let adnation_status := update_adnation_vec_and_format_index adnation_vec
        Part.carpels c format_index adnation_status
      some (carpels_string, adnation_status)
    | Option.none => some ("", adnation_status)
    : Option (String × AdnationIndex))
  let fruits := joinSep "," (self.fruit.map Fruit.fmt)
  let fruit_string := ";" ++ fruits
  let adn := adnation_status.fmt
  let adnation_string := if adn = "" then "" else "\n" ++ adn
  some (sym ++ calyx_perianth_or_tepals ++ anthers ++ carpels_string
    ++ fruit_string ++ adnation_string)

/-! ## Parsers (`FromStr` impls of `src/floral.rs` and `src/parse.rs`) -/

/-- Rust `str::contains(char)`. -/
def strContains (s : String) (c : Char) : Bool := s.data.contains c

/-- Rust `str::replace(c, "")`: removes every occurrence of the character. -/
def stripChar (s : String) (c : Char) : String := ⟨s.data.filter (fun x => x ≠ c)⟩

/-- Rust `str::split(sep)` on a character: `n` separators yield `n + 1`
pieces, empty pieces included. -/
def splitChar (sep : Char) : List Char → List (List Char)
  | [] => [[]]
  | c :: rest =>
    if c = sep then [] :: splitChar sep rest
    else
      match splitChar sep rest with
      | [] => [[c]]
      | g :: gs => (c :: g) :: gs

/-- String-level wrapper for `splitChar`. -/
def splitOnChar (sep : Char) (s : String) : List String :=
  (splitChar sep s.data).map List.asString

/-- FromStr for `Symmetry` (`src/floral.rs:122`). -/
def Symmetry.from_str (s : String) : FResult Symmetry :=
  match s with
  | "r" => .ok .radial
  | "up" => .ok (.bilateral .up)
  | "down" => .ok (.bilateral .down)
  | "left" => .ok (.bilateral .left)
  | "right" => .ok (.bilateral .right)
  | "upleft" => .ok (.bilateral .upleft)
  | "upright" => .ok (.bilateral .upright)
  | "downleft" => .ok (.bilateral .downleft)
  | "downright" => .ok (.bilateral .downright)
  | "a" => .ok .asymmetry
  | "s" => .ok .spiral
  | "d" => .ok .disymmetric
  | other => .error (.fromStrKind
      ("the string '" ++ other ++ "' - could not be converted to a symmetry"))

/-- Rust `u32::from_str` semantics: an optional leading `+`, then one or
more ASCII decimal digits, value below `2 ^ 32`; anything else is an error
(`None` here). -/
def parseU32 (s : String) : Option Nat :=
  let t := match s.data with
    | '+' :: rest => rest
    | l => l
  if t = [] then Option.none
  else if t.all Char.isDigit then
    let n := t.foldl (fun acc c => acc * 10 + (c.toNat - 48)) 0
    if n < 4294967296 then some n else Option.none
  else Option.none

/-- FromStr for `FloralPartNumber` (`src/floral.rs:159`): special tokens
first, then a `u32` parse, with values above 30 collapsed to `Infinite`. -/
def FloralPartNumber.from_str (s : String) : FResult FloralPartNumber :=
  if s = "-" || s = "" then .ok (.finite 0)
  else if s = "inf" then .ok .infinite
  else if s = "0.5" then .ok .fractional
  else
    match parseU32 s with
    | Option.none => .error (.parseIntKind
        ("invalid digit found in string. Found \"" ++ s ++ "\", expected a number"))
    | some num => if num ≤ 30 then .ok (.finite num) else .ok .infinite

/-- FromStr for `Ovary` (`src/floral.rs:679`). -/
def Ovary.from_str (s : String) : FResult Ovary :=
  match s with
  | "s" => .ok .superior
  | "i" => .ok .inferior
  | ov_str => .error (.fromStrKind
      ("the string: " ++ ov_str ++ ", does not correspond to an ovary position"))

/-- FromStr for `Part` (`src/floral.rs:705`). -/
def Part.from_str (s : String) : FResult Part :=
  match s with
  | "T" => .ok .tepals
  | "K" => .ok .calyx
  | "C" => .ok .petals
  | "A" => .ok .stamens
  | "G" => .ok .carpels
  | err => .error (.fromStrKind ("The input string: " ++ err ++ " - is not recognised"))

/-- FromStr for `Fruit` (`src/floral.rs:804`), synonyms included. -/
def Fruit.from_str (s : String) : FResult Fruit :=
  match s with
  | "achene" => .ok .achene
  | "achenes" => .ok .achene
  | "berry" => .ok .berry
  | "berries" => .ok .berry
  | "berrylets" => .ok .berrylets
  | "capsule" => .ok .capsule
  | "fleshy capsule" => .ok .capsule
  | "caryopsis" => .ok .caryopsis
  | "dehiscent drupe" => .ok .ddrupe
  | "drupe" => .ok .drupe
  | "drupes" => .ok .drupe
  | "drupelets" => .ok .drupelets
  | "follicle" => .ok .follicle
  | "follicles" => .ok .follicle
  | "indehiscent pod" => .ok .ipod
  | "legume" => .ok .legume
  | "loment" => .ok .loment
  | "nut" => .ok .nut
  | "aggregate of nuts" => .ok .aggregateOfNuts
  | "pome" => .ok .pome
  | "samara" => .ok .samara
  | "samaras" => .ok .samara
  | "schizocarp" => .ok .schizocarp
  | "silique" => .ok .silique
  | "utricle" => .ok .utricle
  | "-" => .ok .none
  | "" => .ok .none
  | other => .error (.fromStrKind ("fruit: " ++ other ++ ", not recognised"))

/-- Rust `parse_ovary` (`src/parse.rs:82`): empty or `"-"` is `None`;
otherwise every `;`-separated token is parsed and the field resolves to
`Both` whenever more than one token was present (`ov_vec.len() > 1`).
The Rust `ov_vec[0]` index is total here via `headD`; the vector is
provably non-empty because `split` never yields an empty list. -/
def parse_ovary (s : String) : FResult (Option Ovary) :=
  if s = "" || s = "-" then .ok Option.none
  else do
    let sp := splitOnChar ';' s
    let ov_vec ← sp.mapM Ovary.from_str
    if ov_vec.length > 1 then .ok (some .both)
    else .ok (some (ov_vec.headD .both))

/-- Rust `parse_adnation` (`src/parse.rs:102`). -/
def parse_adnation (s : String) : FResult Adnation :=
  if s = "" || s = "-" then .ok {}
  else
    (splitOnChar ';' s).foldlM
      (fun adn el =>
        if el = "v" then .ok (adn.set_variation true)
        else do
          let part ← Part.from_str el
          .ok (adn.add_part part))
      {}

/-- The loop body of `any_contains_vars` (`src/parse.rs:141`): the three
flags accumulate across elements, and each flag's characters are stripped
from an element only once the accumulated flag is set. -/
def any_contains_vars_go (sterile connate variab : Bool) :
    List String → List String × (Bool × Bool × Bool)
  | [] => ([], (sterile, connate, variab))
  | el :: rest =>
    let sterile := sterile || strContains el 's'
    let el := if sterile then stripChar el 's' else el
    let connate := connate || strContains el 'c'
    let el := if connate then stripChar el 'c' else el
    let variab := variab || strContains el 'v'
    let el := if variab then stripChar el 'v' else el
    let (rest_out, flags) := any_contains_vars_go sterile connate variab rest
    (el :: rest_out, flags)

/-- Rust `any_contains_vars` (`src/parse.rs:141`). -/
def any_contains_vars (s : List String) : List String × (Bool × Bool × Bool) :=
  any_contains_vars_go false false false s

/-- One iteration of the token loop of `parse_floral_part_to_enum`
(`src/parse.rs:169`): range tokens, the bare `c` and `v` tokens, and plain
counts.  The Rust `updated_split[0]`/`[1]` indexes are total here via
`getD`; both positions provably exist because the token contains `-`. -/
def parse_token (floral : FloralPart) (el : String) : FResult FloralPart :=
  if strContains el '-' then
    let split := splitOnChar '-' el
    let stripped := any_contains_vars split
    match stripped with
    | (updated_split, (sterile, connate, variab)) => do
      let mi ← FloralPartNumber.from_str (updated_split.getD 0 "")
      let ma ← FloralPartNumber.from_str (updated_split.getD 1 "")
      .ok (floral.add_whorl (Whorl.new Option.none (some mi) (some ma) sterile connate variab))
  else if el = "c" then .ok (floral.set_connation true)
  else if el = "v" then .ok (floral.set_connation_variation true)
  else
    match any_contains_vars [el] with
    | (updated_vec, (sterile, connate, variab)) => do
      let n ← FloralPartNumber.from_str (updated_vec.getD 0 "")
      .ok (floral.add_whorl (Whorl.new (some n) Option.none Option.none sterile connate variab))

/-- Rust `parse_floral_part_to_enum` (`src/parse.rs:124`): `None` for an
empty or `"-"` field, otherwise the token loop over the `;`-split field. -/
def parse_floral_part_to_enum (s : String) (floral_part : Part)
    (ovary : Option Ovary) : FResult (Option FloralPart) :=
  if s = "" || s = "-" then .ok Option.none
  else do
    let sp := splitOnChar ';' s
    let floral := (({} : FloralPart).set_ovary ovary).set_part floral_part
    let floral ← sp.foldlM parse_token floral
    .ok (some floral)

/-- Rust `floral_from_str` (`src/parse.rs:37`): the whole-record parser
over the nine notation fields; the builder chain is collapsed into a
record literal. -/
def floral_from_str (symmetry tepals calyx petals anthers carpels ovary
    fruit adnation : String) : FResult Formula := do
  let sym_vec := splitOnChar ';' symmetry
  let parsed_sym ← sym_vec.mapM Symmetry.from_str
  let parsed_ovary ← parse_ovary ovary
  let parsed_tepals ← parse_floral_part_to_enum tepals Part.tepals Option.none
  let parsed_calyx ← parse_floral_part_to_enum calyx Part.calyx Option.none
  let parsed_petals ← parse_floral_part_to_enum petals Part.petals Option.none
  let parsed_anthers ← parse_floral_part_to_enum anthers Part.stamens Option.none
  let parsed_carpels ← parse_floral_part_to_enum carpels Part.carpels parsed_ovary
  let parsed_adnation ← parse_adnation adnation
  let parsed_fruit ← (splitOnChar ';' fruit).mapM Fruit.from_str
  .ok { symmetry := parsed_sym, tepals := parsed_tepals, sepals := parsed_calyx,
        petals := parsed_petals, stamens := parsed_anthers, carpels := parsed_carpels,
        fruit := parsed_fruit, adnation := parsed_adnation }

/-! ## Statement-side definitions

Definitions used only to state the claims: the spec's reference bracket
algorithm (for the refinement claim C4), the diacritic sequences of §4.5,
and the perianth presence table of §4.3. -/

/-- Reference algorithm of spec §4.7, loop part, stated from the spec's
words: for each subsequent column emit `column − previous − 1` fill
glyphs, then the junction glyph at every interior column and the
close-right glyph at the last. -/
def specGo (cs : List Char) (prev : Nat) : List Nat → String
  | [] => ""
  | [last] => repeatChar (last - prev - 1) (cs.getD 2 ' ') ++ cStr (cs.getD 1 ' ')
  | x :: rest =>
    repeatChar (x - prev - 1) (cs.getD 2 ' ') ++ cStr (cs.getD 3 ' ') ++ specGo cs x rest

/-- Reference algorithm of spec §4.7, stated from the spec's words: 0 or 1
columns render nothing; two columns `a < b` render `a` spaces, the
open-left glyph, `b − a − 1` fill glyphs and the close-right glyph; three
or more render the leading spaces and open-left glyph at the first column
followed by the loop of `specGo`. -/
def specBracketLine (cs : List Char) : List Nat → String
  | [] => ""
  | [_] => ""
  | [a, b] =>
    repeatChar a ' ' ++ cStr (cs.getD 0 ' ')
      ++ repeatChar (b - a - 1) (cs.getD 2 ' ') ++ cStr (cs.getD 1 ' ')
  | a :: rest =>
    repeatChar a ' ' ++ cStr (cs.getD 0 ' ') ++ specGo cs a rest

/-- The diacritic character sequence spec §4.5 prescribes after the part
letter for each ovary value. -/
def ovaryMarks : Option Ovary → List Char
  | some Ovary.superior => [lowline]
  | some Ovary.inferior => [overline]
  | some Ovary.both => [overline, lowline]
  | Option.none => []

/-- The perianth presence table of spec §4.3: exactly the three valid
tepals/petals/sepals presence combinations. -/
def validPerianthCombo (f : Formula) : Bool :=
  (f.tepals.isSome && !f.petals.isSome && !f.sepals.isSome)
    || (!f.tepals.isSome && f.petals.isSome && f.sepals.isSome)
    || (f.tepals.isSome && f.petals.isSome && f.sepals.isSome)

/-- Value of a list of decimal digit characters (most significant first). -/
def valD (L : List Char) : Nat := L.foldl (fun a c => a * 10 + (c.toNat - 48)) 0

/-! ## The segment re-parser for the round-trip claim

The claim speaks of re-parsing the rendered primary line segment by
segment and recovering the organ letters, counts and fusion markers.  The
following parser reads the rendered notation grammar back into that value
content.  The fusion marker a part shows is its connate flag and, only
when connate, its connation-variation flag (the renderer drops the
variation flag of a non-connate part), so the recovered part-level content
is `(letter, connate, connate && connation_variation)`. -/

/-- The value content of one rendered segment: the organ letter, the
part-level fusion markers as shown, and the whorls. -/
structure SegContent where
  part : Part
  connate : Bool
  variation : Bool
  whorls : List Whorl
deriving DecidableEq, Repr

/-- The content a rendered floral part shows: the variation marker
survives only on connate parts. -/
def FloralPart.content (fp : FloralPart) : SegContent :=
  { part := fp.part, connate := fp.connate,
    variation := fp.connate && fp.connation_variation, whorls := fp.whorls }

/-- The sequence of segment contents a formula renders, in render order
(tepals; or calyx then petals; or tepals, calyx, petals; then optional
stamens and carpels). -/
def Formula.normContent (f : Formula) : List SegContent :=
  (match f.tepals, f.petals, f.sepals with
   | some t, Option.none, Option.none => [t.content]
   | Option.none, some p, some s => [s.content, p.content]
   | some t, some p, some s => [t.content, s.content, p.content]
   | _, _, _ => []) ++
  (match f.stamens with
   | some a => [a.content]
   | Option.none => []) ++
  (match f.carpels with
   | some c => [c.content]
   | Option.none => [])

/-- Read one count token: `½`, `∞`, or a run of decimal digits. -/
def readNumber (l : List Char) : Option (FloralPartNumber × List Char) :=
  if l.head? = some '½' then some (FloralPartNumber.fractional, l.tail)
  else if l.head? = some '∞' then some (FloralPartNumber.infinite, l.tail)
  else
    let digits := l.takeWhile Char.isDigit
    if digits = [] then Option.none
    else some (FloralPartNumber.finite (valD digits), l.dropWhile Char.isDigit)

/-- Read the optional sterility glyph. -/
def readSterile (l : List Char) : Sterile × List Char :=
  if l.head? = some '•' then (Sterile.sterile, l.tail) else (Sterile.fertile, l)

/-- Read a count or a `min-max` range. -/
def readWhorlNums (l : List Char) :
    Option ((Option FloralPartNumber × Option FloralPartNumber × Option FloralPartNumber)
      × List Char) :=
  match readNumber l with
  | Option.none => Option.none
  | some (n1, r1) =>
    if r1.head? = some '-' then
      match readNumber r1.tail with
      | Option.none => Option.none
      | some (n2, r2) => some ((Option.none, some n1, some n2), r2)
    else
      some ((some n1, Option.none, Option.none), r1)

/-- Read one whorl: the count or range with its sterility glyph, either
bare or wrapped in `(...)` / `(...]`. -/
def readWhorl (l : List Char) : Option (Whorl × List Char) :=
  if l.head? = some '(' then
    match readWhorlNums l.tail with
    | Option.none => Option.none
    | some (nums, r1) =>
      match readSterile r1 with
      | (st, r2) =>
        if r2.head? = some ')' then
          some (⟨nums.1, nums.2.1, nums.2.2, st, true, false⟩, r2.tail)
        else if r2.head? = some ']' then
          some (⟨nums.1, nums.2.1, nums.2.2, st, true, true⟩, r2.tail)
        else Option.none
  else
    match readWhorlNums l with
    | Option.none => Option.none
    | some (nums, r1) =>
      match readSterile r1 with
      | (st, r2) => some (⟨nums.1, nums.2.1, nums.2.2, st, false, false⟩, r2)

/-- Read a non-empty `+`-separated whorl list (fuel-bounded). -/
def readWhorls : Nat → List Char → Option (List Whorl × List Char)
  | 0, _ => Option.none
  | fuel + 1, l =>
    match readWhorl l with
    | Option.none => Option.none
    | some (w, r1) =>
      if r1.head? = some '+' then
        match readWhorls fuel r1.tail with
        | Option.none => Option.none
        | some (ws, r2) => some (w :: ws, r2)
      else
        some ([w], r1)

/-- Characters that can begin a whorl rendering. -/
def isWhorlStart (c : Char) : Bool := c.isDigit || c = '½' || c = '∞' || c = '('

/-- Whether the head of the list satisfies a predicate. -/
def headSat (p : Char → Bool) (l : List Char) : Bool :=
  match l.head? with
  | some c => p c
  | Option.none => false

/-- Skip the ovary combining marks after the part letter. -/
def skipMarks (l : List Char) : List Char :=
  l.dropWhile (fun c => c = overline || c = lowline)

/-- Read an organ letter. -/
def readLetter (l : List Char) : Option (Part × List Char) :=
  if l.head? = some 'T' then some (Part.tepals, l.tail)
  else if l.head? = some 'K' then some (Part.calyx, l.tail)
  else if l.head? = some 'C' then some (Part.petals, l.tail)
  else if l.head? = some 'A' then some (Part.stamens, l.tail)
  else if l.head? = some 'G' then some (Part.carpels, l.tail)
  else Option.none

/-- Read one rendered part segment: optional part-level `(`, the letter,
the ovary marks, the whorl list (possibly empty), and the part-level
closer `)` or `]` when opened. -/
def readSeg (fuel : Nat) (l : List Char) : Option (SegContent × List Char) :=
  if l.head? = some '(' then
    match readLetter l.tail with
    | Option.none => Option.none
    | some (p, r1) =>
      match (if headSat isWhorlStart (skipMarks r1)
          then readWhorls fuel (skipMarks r1) else some ([], skipMarks r1)) with
      | Option.none => Option.none
      | some (ws, r3) =>
        if r3.head? = some ')' then
          some ({ part := p, connate := true, variation := false, whorls := ws }, r3.tail)
        else if r3.head? = some ']' then
          some ({ part := p, connate := true, variation := true, whorls := ws }, r3.tail)
        else Option.none
  else
    match readLetter l with
    | Option.none => Option.none
    | some (p, r1) =>
      match (if headSat isWhorlStart (skipMarks r1)
          then readWhorls fuel (skipMarks r1) else some ([], skipMarks r1)) with
      | Option.none => Option.none
      | some (ws, r3) =>
        some ({ part := p, connate := false, variation := false, whorls := ws }, r3)

/-- Characters on which a segment may legitimately stop. -/
def isSegStop (c : Char) : Bool := c = ',' || c = ';' || c = '[' || c = ']'

/-- Read the `,`-led segments of the primary line, handling the
`[or ...]` alternative and stopping at the `;` that introduces the fruit
list (fuel-bounded). -/
def readSegs : Nat → List Char → Option (List SegContent)
  | 0, _ => Option.none
  | fuel + 1, l =>
    if l.head? = some ',' then
      match readSeg fuel l.tail with
      | Option.none => Option.none
      | some (seg, r1) =>
        if r1.take 4 = ['[', 'o', 'r', ' '] then
          match readSeg fuel (r1.drop 4) with
          | Option.none => Option.none
          | some (segK, r2) =>
            if r2.head? = some ',' then
              match readSeg fuel r2.tail with
              | Option.none => Option.none
              | some (segC, r3) =>
                if r3.head? = some ']' then
                  match readSegs fuel r3.tail with
                  | Option.none => Option.none
                  | some rest => some (seg :: segK :: segC :: rest)
                else Option.none
            else Option.none
        else
          match readSegs fuel r1 with
          | Option.none => Option.none
          | some rest => some (seg :: rest)
    else if l.head? = some ';' then some []
    else Option.none

/-- Re-parse the primary line (the text before any bracket line): skip the
symmetry prefix up to the first comma, then read the segments. -/
def reparseLine (line : String) : Option (List SegContent) :=
  let l := line.data.takeWhile (fun c => c ≠ '\n')
  readSegs (l.length + 1) (l.dropWhile (fun c => c ≠ ','))

/-- The comma-led concatenation of rendered part segments followed by a
tail: the shape of the primary line after the symmetry prefix. -/
def plainSegs : List (FloralPart × String) → List Char → List Char
  | [], tail => tail
  | q :: r, tail => ',' :: ((q.2).data ++ plainSegs r tail)

/-! ## Theorems -/

/-- Helper: head of an append with a non-empty left part. -/
theorem head?_append_of_ne {l1 l2 : List Char} (h : l1 ≠ []) :
    (l1 ++ l2).head? = l1.head? := by
  cases l1 with
  | nil => exact absurd rfl h
  | cons c cs => rfl

/-- Helper: `digitChar` of a value below ten is a decimal digit whose
code-point recovers the value. -/
theorem digitChar_spec : ∀ m, m < 10 →
    (Nat.digitChar m).isDigit = true ∧ (Nat.digitChar m).toNat - 48 = m := by
  decide

/-- Helper: `Nat.toDigitsCore` with sufficient fuel prepends a non-empty
run of decimal digits whose value is the input. -/
theorem toDigitsCore_spec : ∀ (f n : Nat) (acc : List Char), n < f →
    ∃ L, Nat.toDigitsCore 10 f n acc = L ++ acc ∧ L ≠ [] ∧
      (∀ c ∈ L, c.isDigit = true) ∧ valD L = n := by
  intro f
  induction f with
  | zero => intro n acc h; omega
  | succ f ih =>
    intro n acc _h
    have hmod : n % 10 < 10 := Nat.mod_lt _ (by omega)
    obtain ⟨hdig, hval⟩ := digitChar_spec (n % 10) hmod
    by_cases hdiv : n / 10 = 0
    · refine ⟨[Nat.digitChar (n % 10)], ?_, by simp, ?_, ?_⟩
      · simp [Nat.toDigitsCore, hdiv]
      · intro c hc
        rcases List.mem_singleton.1 hc with rfl
        exact hdig
      · show 0 * 10 + ((n % 10).digitChar.toNat - 48) = n
        rw [hval]
        omega
    · have hstep : Nat.toDigitsCore 10 (f + 1) n acc
          = Nat.toDigitsCore 10 f (n / 10) (Nat.digitChar (n % 10) :: acc) := by
        simp [Nat.toDigitsCore, hdiv]
      have hlt : n / 10 < f := by
        have h1 : n / 10 < n := Nat.div_lt_self (by omega) (by omega)
        omega
      obtain ⟨L, hL, hLne, hLdig, hLval⟩ := ih (n / 10) (Nat.digitChar (n % 10) :: acc) hlt
      refine ⟨L ++ [Nat.digitChar (n % 10)], ?_, by simp, ?_, ?_⟩
      · rw [hstep, hL, List.append_assoc]
        rfl
      · intro c hc
        rcases List.mem_append.1 hc with hc | hc
        · exact hLdig c hc
        · rcases List.mem_singleton.1 hc with rfl
          exact hdig
      · show List.foldl _ 0 (L ++ [Nat.digitChar (n % 10)]) = n
        rw [List.foldl_append]
        show valD L * 10 + ((Nat.digitChar (n % 10)).toNat - 48) = n
        rw [hLval, hval]
        omega

/-- Helper: the decimal representation of a natural number is a non-empty
run of decimal digits whose value is the number. -/
theorem repr_spec (n : Nat) : (Nat.repr n).data ≠ [] ∧
    (∀ c ∈ (Nat.repr n).data, c.isDigit = true) ∧ valD (Nat.repr n).data = n := by
  obtain ⟨L, hL, hLne, hLdig, hLval⟩ := toDigitsCore_spec (n + 1) n [] (by omega)
  have hdata : (Nat.repr n).data = L := by
    show (Nat.toDigits 10 n).asString.data = L
    rw [Nat.toDigits, hL]
    simp [List.asString]
  rw [hdata]
  exact ⟨hLne, hLdig, hLval⟩

/-- Helper: a `FloralPartNumber` rendering is non-empty and starts with a
digit, `½` or `∞`. -/
theorem fpn_fmt_head (x : FloralPartNumber) :
    (x.fmt).data ≠ [] ∧ ∀ c, (x.fmt).data.head? = some c →
      (c.isDigit = true ∨ c = '½' ∨ c = '∞') := by
  cases x with
  | finite u =>
    obtain ⟨hne, hdig, _⟩ := repr_spec u
    refine ⟨hne, ?_⟩
    intro c hc
    exact Or.inl (hdig c (List.mem_of_mem_head? hc))
  | fractional => exact ⟨by decide, by decide⟩
  | infinite => exact ⟨by decide, by decide⟩

/-- Helper: a whorl rendering is non-empty and starts with an opening
parenthesis, a digit, `½` or `∞`. -/
theorem whorl_fmt_head (w : Whorl) (str : String) (h : Whorl.fmt w = some str) :
    str.data ≠ [] ∧ ∀ c, str.data.head? = some c →
      (c = '(' ∨ c.isDigit = true ∨ c = '½' ∨ c = '∞') := by
  have hwrap : ∀ core : String, core.data ≠ [] →
      (∀ c, core.data.head? = some c → (c.isDigit = true ∨ c = '½' ∨ c = '∞')) →
      Whorl.fmtWrap w core = some str →
      str.data ≠ [] ∧ ∀ c, str.data.head? = some c →
        (c = '(' ∨ c.isDigit = true ∨ c = '½' ∨ c = '∞') := by
    intro core hcne hchead hw
    rcases hc1 : w.connation with _ | _ <;> rcases hc2 : w.connation_variation with _ | _ <;>
      rw [Whorl.fmtWrap, hc1, hc2] at hw
    · have heq : core = str := by simpa using hw
      subst heq
      exact ⟨hcne, fun c hc => Or.inr (hchead c hc)⟩
    · simp at hw
    · have heq : ("(" ++ core ++ ")" : String) = str := by simpa using hw
      subst heq
      refine ⟨by simp, ?_⟩
      intro c hc
      rw [show (("(" ++ core ++ ")" : String)).data.head? = some '(' from rfl] at hc
      exact Or.inl (Option.some.inj hc).symm
    · have heq : ("(" ++ core ++ "]" : String) = str := by simpa using hw
      subst heq
      refine ⟨by simp, ?_⟩
      intro c hc
      rw [show (("(" ++ core ++ "]" : String)).data.head? = some '(' from rfl] at hc
      exact Or.inl (Option.some.inj hc).symm
  rcases hn : w.number with _ | n <;> rcases hmi : w.min with _ | mi <;>
    rcases hma : w.max with _ | ma <;> rw [Whorl.fmt, hn, hmi, hma] at h
  · replace h : (Option.none : Option String) = some str := h
    simp at h
  · replace h : (Option.none : Option String) = some str := h
    simp at h
  · replace h : (Option.none : Option String) = some str := h
    simp at h
  · -- range: min and max present
    replace h : Whorl.fmtWrap w (mi.fmt ++ "-" ++ ma.fmt ++ w.sterile.fmt) = some str := h
    obtain ⟨hne, hhead⟩ := fpn_fmt_head mi
    refine hwrap _ ?_ ?_ h
    · simp [hne]
    · intro c hc
      rw [String.data_append, String.data_append, String.data_append,
        List.append_assoc, List.append_assoc, head?_append_of_ne hne] at hc
      exact hhead c hc
  · -- single number
    replace h : Whorl.fmtWrap w (n.fmt ++ w.sterile.fmt) = some str := h
    obtain ⟨hne, hhead⟩ := fpn_fmt_head n
    refine hwrap _ ?_ ?_ h
    · simp [hne]
    · intro c hc
      rw [String.data_append, head?_append_of_ne hne] at hc
      exact hhead c hc
  · replace h : (Option.none : Option String) = some str := h
    simp at h
  · replace h : (Option.none : Option String) = some str := h
    simp at h
  · replace h : (Option.none : Option String) = some str := h
    simp at h

/-- Helper: the letter-with-diacritic block of `FloralPart.fmt` is the
part letter followed by the §4.5 mark sequence. -/
theorem letterWithOvary_data (fp : FloralPart) :
    fp.letterWithOvary.data = fp.part.fmt.data ++ ovaryMarks fp.ovary := by
  rcases ho : fp.ovary with _ | ov
  · simp [FloralPart.letterWithOvary, ho, ovaryMarks]
  · cases ov <;> simp [FloralPart.letterWithOvary, ho, ovaryMarks, cStr]

/-- Helper: every part letter is a single character. -/
theorem part_fmt_length (p : Part) : p.fmt.data.length = 1 := by
  cases p <;> rfl

/-- Helper: the head of a non-trivial `+`-join is the head of its first
element. -/
theorem joinSep_cons_head (w : String) (rest : List String) (hw : w.data ≠ []) :
    (joinSep "+" (w :: rest)).data.head? = w.data.head? := by
  cases rest with
  | nil => rfl
  | cons x xs =>
    show ((w ++ "+") ++ joinSep "+" (x :: xs)).data.head? = _
    rw [String.data_append, head?_append_of_ne (by simp [hw]), String.data_append,
      head?_append_of_ne hw]

/-- Helper: a successful `mapM Whorl.fmt` is either empty on both sides or
has a rendered head whorl. -/
theorem mapM_whorl_head {l : List Whorl} {ws : List String}
    (h : l.mapM Whorl.fmt = some ws) :
    (ws = []) ∨ ∃ w0 s0 ws0, ws = s0 :: ws0 ∧ Whorl.fmt w0 = some s0 := by
  cases l with
  | nil =>
    left
    replace h : (some [] : Option (List String)) = some ws := h
    exact (Option.some.inj h).symm
  | cons w0 l0 =>
    right
    rw [List.mapM_cons] at h
    cases hf : Whorl.fmt w0 with
    | none => rw [hf] at h; simp at h
    | some s0 =>
      rw [hf] at h
      cases hm : l0.mapM Whorl.fmt with
      | none => rw [hm] at h; simp at h
      | some ws0 =>
        rw [hm] at h
        simp at h
        exact ⟨w0, s0, ws0, h.symm, hf⟩

/-- Helper: `takeWhile`/`dropWhile` split an append exactly when the left
part satisfies the predicate throughout and the right part's head does
not. -/
theorem takeWhile_append_all {p : Char → Bool} {l1 l2 : List Char}
    (h1 : ∀ c ∈ l1, p c = true) (h2 : ∀ c, l2.head? = some c → p c = false) :
    (l1 ++ l2).takeWhile p = l1 ∧ (l1 ++ l2).dropWhile p = l2 := by
  induction l1 with
  | nil =>
    simp only [List.nil_append]
    cases l2 with
    | nil => exact ⟨rfl, rfl⟩
    | cons c cs =>
      have hc := h2 c rfl
      exact ⟨by simp [List.takeWhile_cons, hc], by simp [List.dropWhile_cons, hc]⟩
  | cons a l ih =>
    have ha := h1 a (by simp)
    obtain ⟨iht, ihd⟩ := ih (fun c hc => h1 c (by simp [hc]))
    exact ⟨by simp [List.takeWhile_cons, ha, iht], by simp [List.dropWhile_cons, ha, ihd]⟩

/-- Helper: reading back a rendered count token recovers the value, for
any remainder that does not start with a digit. -/
theorem readNumber_spec (x : FloralPartNumber) (rest : List Char)
    (hrest : ∀ c, rest.head? = some c → c.isDigit = false) :
    readNumber ((x.fmt).data ++ rest) = some (x, rest) := by
  cases x with
  | fractional =>
    show readNumber ('½' :: rest) = _
    rw [readNumber, show (('½' :: rest : List Char)).head? = some '½' from rfl, if_pos rfl]
    rfl
  | infinite =>
    show readNumber ('∞' :: rest) = _
    rw [readNumber, show (('∞' :: rest : List Char)).head? = some '∞' from rfl,
      if_neg (by decide), if_pos rfl]
    rfl
  | finite n =>
    obtain ⟨hne, hdig, hval⟩ := repr_spec n
    have hhead : ((Nat.repr n).data ++ rest).head? = (Nat.repr n).data.head? :=
      head?_append_of_ne hne
    obtain ⟨d, ds, hd⟩ : ∃ d ds, (Nat.repr n).data = d :: ds := by
      cases h : (Nat.repr n).data with
      | nil => exact absurd h hne
      | cons d ds => exact ⟨d, ds, rfl⟩
    have hddig : d.isDigit = true := hdig d (by rw [hd]; simp)
    have hh : ((Nat.repr n).data ++ rest).head? = some d := by rw [hhead, hd]; rfl
    have hne1 : ¬(((Nat.repr n).data ++ rest).head? = some '½') := by
      rw [hh]
      intro hcon
      have hdd : d = '½' := Option.some.inj hcon
      rw [hdd] at hddig
      exact absurd hddig (by decide)
    have hne2 : ¬(((Nat.repr n).data ++ rest).head? = some '∞') := by
      rw [hh]
      intro hcon
      have hdd : d = '∞' := Option.some.inj hcon
      rw [hdd] at hddig
      exact absurd hddig (by decide)
    obtain ⟨ht, hdr⟩ := takeWhile_append_all (p := Char.isDigit) hdig hrest
    show readNumber ((Nat.repr n).data ++ rest) = some (FloralPartNumber.finite n, rest)
    rw [readNumber, if_neg hne1, if_neg hne2]
    simp only [ht, hdr]
    rw [if_neg hne, hval]

/-- Helper: reading back a rendered sterility glyph. -/
theorem readSterile_spec (st : Sterile) (rest : List Char)
    (hrest : rest.head? ≠ some '•') :
    readSterile ((st.fmt).data ++ rest) = (st, rest) := by
  cases st with
  | fertile =>
    show readSterile rest = _
    rw [readSterile, if_neg hrest]
  | sterile =>
    show readSterile ('•' :: rest) = _
    rw [readSterile, show (('•' :: rest : List Char)).head? = some '•' from rfl, if_pos rfl]
    rfl

/-- Helper: reading back a rendered organ letter. -/
theorem readLetter_spec (p : Part) (rest : List Char) :
    readLetter ((p.fmt).data ++ rest) = some (p, rest) := by
  cases p <;> rfl

/-- Helper: negated head equation from a pointwise head constraint. -/
theorem head_ne {rest : List Char} {a : Char}
    (h : ∀ c, rest.head? = some c → c ≠ a) : ¬(rest.head? = some a) :=
  fun hc => h a hc rfl

/-- Helper: a rendered count followed by anything cannot start with an
opening parenthesis. -/
theorem fpn_append_head_ne_paren (x : FloralPartNumber) (R : List Char) :
    ¬(((x.fmt).data ++ R).head? = some '(') := by
  obtain ⟨hne, hhead⟩ := fpn_fmt_head x
  rw [head?_append_of_ne hne]
  intro hc
  rcases hhead '(' hc with h | h | h <;> exact absurd h (by decide)

/-- Helper: re-reading a rendered single count. -/
theorem readWhorlNums_single (x : FloralPartNumber) (rest : List Char)
    (hrest : ∀ c, rest.head? = some c → (c.isDigit = false ∧ c ≠ '-')) :
    readWhorlNums ((x.fmt).data ++ rest)
      = some ((some x, Option.none, Option.none), rest) := by
  have h1 := readNumber_spec x rest (fun c hc => (hrest c hc).1)
  have h2 : ¬(rest.head? = some '-') := head_ne (fun c hc => (hrest c hc).2)
  simp only [readWhorlNums, h1, if_neg h2]

/-- Helper: re-reading a rendered `min-max` range. -/
theorem readWhorlNums_range (x y : FloralPartNumber) (rest : List Char)
    (hrest : ∀ c, rest.head? = some c → (c.isDigit = false ∧ c ≠ '-')) :
    readWhorlNums ((x.fmt).data ++ '-' :: ((y.fmt).data ++ rest))
      = some ((Option.none, some x, some y), rest) := by
  have h1 := readNumber_spec x ('-' :: ((y.fmt).data ++ rest)) (fun c hc => by
    have hcc : c = '-' := (Option.some.inj hc).symm
    rw [hcc]
    decide)
  have h2 := readNumber_spec y rest (fun c hc => (hrest c hc).1)
  simp only [readWhorlNums, h1, List.head?_cons, List.tail_cons, h2]
  simp

/-- Helper: re-reading a rendered single count and its sterility glyph. -/
theorem numSter_single (x : FloralPartNumber) (st : Sterile) (rest : List Char)
    (hrest : ∀ c, rest.head? = some c → (c.isDigit = false ∧ c ≠ '-' ∧ c ≠ '•')) :
    readWhorlNums (((x.fmt ++ st.fmt : String)).data ++ rest)
      = some ((some x, Option.none, Option.none), (st.fmt).data ++ rest) ∧
    readSterile ((st.fmt).data ++ rest) = (st, rest) := by
  constructor
  · have hre : ((x.fmt ++ st.fmt : String)).data ++ rest
        = (x.fmt).data ++ ((st.fmt).data ++ rest) := by
      rw [String.data_append, List.append_assoc]
    rw [hre]
    apply readWhorlNums_single
    intro c hc
    cases st with
    | sterile =>
      have hcc : c = '•' := by
        rw [show ((Sterile.sterile.fmt).data ++ rest).head? = some '•' from rfl] at hc
        exact (Option.some.inj hc).symm
      rw [hcc]
      exact ⟨by decide, by decide⟩
    | fertile =>
      obtain ⟨h1, h2, _⟩ := hrest c hc
      exact ⟨h1, h2⟩
  · exact readSterile_spec st rest (head_ne (fun c hc => (hrest c hc).2.2))

/-- Helper: re-reading a rendered range and its sterility glyph. -/
theorem numSter_range (x y : FloralPartNumber) (st : Sterile) (rest : List Char)
    (hrest : ∀ c, rest.head? = some c → (c.isDigit = false ∧ c ≠ '-' ∧ c ≠ '•')) :
    readWhorlNums (((x.fmt ++ "-" ++ y.fmt ++ st.fmt : String)).data ++ rest)
      = some ((Option.none, some x, some y), (st.fmt).data ++ rest) ∧
    readSterile ((st.fmt).data ++ rest) = (st, rest) := by
  have hster : ∀ c, ((st.fmt).data ++ rest).head? = some c →
      (c.isDigit = false ∧ c ≠ '-') := by
    intro c hc
    cases st with
    | sterile =>
      have hcc : c = '•' := by
        rw [show ((Sterile.sterile.fmt).data ++ rest).head? = some '•' from rfl] at hc
        exact (Option.some.inj hc).symm
      rw [hcc]
      exact ⟨by decide, by decide⟩
    | fertile =>
      obtain ⟨h1, h2, _⟩ := hrest c hc
      exact ⟨h1, h2⟩
  constructor
  · have hre : ((x.fmt ++ "-" ++ y.fmt ++ st.fmt : String)).data ++ rest
        = (x.fmt).data ++ '-' :: ((y.fmt).data ++ ((st.fmt).data ++ rest)) := by
      simp [String.data_append, List.append_assoc]
    rw [hre]
    exact readWhorlNums_range x y ((st.fmt).data ++ rest) hster
  · exact readSterile_spec st rest (head_ne (fun c hc => (hrest c hc).2.2))

/-- Helper: re-reading one rendered whorl recovers the whorl, for any
remainder that does not extend it. -/
theorem readWhorl_spec (w : Whorl) (str : String) (rest : List Char)
    (h : Whorl.fmt w = some str)
    (hrest : ∀ c, rest.head? = some c → (c.isDigit = false ∧ c ≠ '-' ∧ c ≠ '•')) :
    readWhorl (str.data ++ rest) = some (w, rest) := by
  obtain ⟨number, min, max, sterile, connation, connation_variation⟩ := w
  rcases number with _ | x <;> rcases min with _ | mi <;> rcases max with _ | ma <;>
    rw [Whorl.fmt] at h
  · replace h : (Option.none : Option String) = some str := h
    simp at h
  · replace h : (Option.none : Option String) = some str := h
    simp at h
  · replace h : (Option.none : Option String) = some str := h
    simp at h
  · -- range shape
    replace h : Whorl.fmtWrap ⟨Option.none, some mi, some ma, sterile, connation,
      connation_variation⟩ (mi.fmt ++ "-" ++ ma.fmt ++ sterile.fmt) = some str := h
    rcases connation with _ | _ <;> rcases connation_variation with _ | _ <;>
      rw [Whorl.fmtWrap] at h
    · have heq : (mi.fmt ++ "-" ++ ma.fmt ++ sterile.fmt : String) = str := by simpa using h
      subst heq
      obtain ⟨hnums, hster⟩ := numSter_range mi ma sterile rest hrest
      rw [readWhorl, if_neg (by
        rw [show ((mi.fmt ++ "-" ++ ma.fmt ++ sterile.fmt : String)).data ++ rest
          = (mi.fmt).data ++ ('-' :: ((ma.fmt).data ++ ((sterile.fmt).data ++ rest))) by
            simp [String.data_append, List.append_assoc]]
        exact fpn_append_head_ne_paren mi _)]
      simp only [hnums, hster]
    · simp at h
    · have heq : ("(" ++ (mi.fmt ++ "-" ++ ma.fmt ++ sterile.fmt) ++ ")" : String) = str := by
        simpa using h
      subst heq
      obtain ⟨hnums, hster⟩ := numSter_range mi ma sterile (')' :: rest)
        (fun c hc => by
          have hcc : c = ')' := (Option.some.inj hc).symm
          rw [hcc]
          exact ⟨by decide, by decide, by decide⟩)
      rw [show (("(" ++ (mi.fmt ++ "-" ++ ma.fmt ++ sterile.fmt) ++ ")" : String)).data ++ rest
        = '(' :: (((mi.fmt ++ "-" ++ ma.fmt ++ sterile.fmt : String)).data ++ (')' :: rest)) by
          simp [String.data_append, List.append_assoc]]
      rw [readWhorl, if_pos (show (('(' :: (((mi.fmt ++ "-" ++ ma.fmt ++ sterile.fmt
        : String)).data ++ (')' :: rest)) : List Char)).head? = some '(' by rfl),
        List.tail_cons]
      simp only [hnums, hster]
      rw [if_pos (show ((')' :: rest : List Char)).head? = some ')' by rfl), List.tail_cons]
    · have heq : ("(" ++ (mi.fmt ++ "-" ++ ma.fmt ++ sterile.fmt) ++ "]" : String) = str := by
        simpa using h
      subst heq
      obtain ⟨hnums, hster⟩ := numSter_range mi ma sterile (']' :: rest)
        (fun c hc => by
          have hcc : c = ']' := (Option.some.inj hc).symm
          rw [hcc]
          exact ⟨by decide, by decide, by decide⟩)
      rw [show (("(" ++ (mi.fmt ++ "-" ++ ma.fmt ++ sterile.fmt) ++ "]" : String)).data ++ rest
        = '(' :: (((mi.fmt ++ "-" ++ ma.fmt ++ sterile.fmt : String)).data ++ (']' :: rest)) by
          simp [String.data_append, List.append_assoc]]
      rw [readWhorl, if_pos (show (('(' :: (((mi.fmt ++ "-" ++ ma.fmt ++ sterile.fmt
        : String)).data ++ (']' :: rest)) : List Char)).head? = some '(' by rfl),
        List.tail_cons]
      simp only [hnums, hster]
      rw [if_neg (show ¬((']' :: rest : List Char)).head? = some ')' from
          fun hcon => absurd (Option.some.inj hcon) (by decide)),
        if_pos (show ((']' :: rest : List Char)).head? = some ']' by rfl), List.tail_cons]
  · -- single-count shape
    replace h : Whorl.fmtWrap ⟨some x, Option.none, Option.none, sterile, connation,
      connation_variation⟩ (x.fmt ++ sterile.fmt) = some str := h
    rcases connation with _ | _ <;> rcases connation_variation with _ | _ <;>
      rw [Whorl.fmtWrap] at h
    · have heq : (x.fmt ++ sterile.fmt : String) = str := by simpa using h
      subst heq
      obtain ⟨hnums, hster⟩ := numSter_single x sterile rest hrest
      rw [readWhorl, if_neg (by
        rw [show ((x.fmt ++ sterile.fmt : String)).data ++ rest
          = (x.fmt).data ++ ((sterile.fmt).data ++ rest) by
            rw [String.data_append, List.append_assoc]]
        exact fpn_append_head_ne_paren x _)]
      simp only [hnums, hster]
    · simp at h
    · have heq : ("(" ++ (x.fmt ++ sterile.fmt) ++ ")" : String) = str := by simpa using h
      subst heq
      obtain ⟨hnums, hster⟩ := numSter_single x sterile (')' :: rest)
        (fun c hc => by
          have hcc : c = ')' := (Option.some.inj hc).symm
          rw [hcc]
          exact ⟨by decide, by decide, by decide⟩)
      rw [show (("(" ++ (x.fmt ++ sterile.fmt) ++ ")" : String)).data ++ rest
        = '(' :: (((x.fmt ++ sterile.fmt : String)).data ++ (')' :: rest)) by
          simp [String.data_append, List.append_assoc]]
      rw [readWhorl, if_pos (show (('(' :: (((x.fmt ++ sterile.fmt : String)).data
        ++ (')' :: rest)) : List Char)).head? = some '(' by rfl), List.tail_cons]
      simp only [hnums, hster]
      rw [if_pos (show ((')' :: rest : List Char)).head? = some ')' by rfl), List.tail_cons]
    · have heq : ("(" ++ (x.fmt ++ sterile.fmt) ++ "]" : String) = str := by simpa using h
      subst heq
      obtain ⟨hnums, hster⟩ := numSter_single x sterile (']' :: rest)
        (fun c hc => by
          have hcc : c = ']' := (Option.some.inj hc).symm
          rw [hcc]
          exact ⟨by decide, by decide, by decide⟩)
      rw [show (("(" ++ (x.fmt ++ sterile.fmt) ++ "]" : String)).data ++ rest
        = '(' :: (((x.fmt ++ sterile.fmt : String)).data ++ (']' :: rest)) by
          simp [String.data_append, List.append_assoc]]
      rw [readWhorl, if_pos (show (('(' :: (((x.fmt ++ sterile.fmt : String)).data
        ++ (']' :: rest)) : List Char)).head? = some '(' by rfl), List.tail_cons]
      simp only [hnums, hster]
      rw [if_neg (show ¬((']' :: rest : List Char)).head? = some ')' from
          fun hcon => absurd (Option.some.inj hcon) (by decide)),
        if_pos (show ((']' :: rest : List Char)).head? = some ']' by rfl), List.tail_cons]
  · replace h : (Option.none : Option String) = some str := h
    simp at h
  · replace h : (Option.none : Option String) = some str := h
    simp at h
  · replace h : (Option.none : Option String) = some str := h
    simp at h

/-- Helper: successful `mapM Whorl.fmt` on a cons decomposes pointwise. -/
theorem mapM_whorl_cons {w0 : Whorl} {l0 : List Whorl} {ws : List String}
    (h : (w0 :: l0).mapM Whorl.fmt = some ws) :
    ∃ s0 ws0, ws = s0 :: ws0 ∧ Whorl.fmt w0 = some s0 ∧ l0.mapM Whorl.fmt = some ws0 := by
  rw [List.mapM_cons] at h
  cases hf : Whorl.fmt w0 with
  | none => rw [hf] at h; simp at h
  | some s0 =>
    rw [hf] at h
    cases hm : l0.mapM Whorl.fmt with
    | none => rw [hm] at h; simp at h
    | some ws0 =>
      rw [hm] at h
      simp at h
      exact ⟨s0, ws0, h.symm, rfl, rfl⟩

/-- Helper: only the empty whorl list maps to the empty string list. -/
theorem mapM_whorl_nil {l : List Whorl} (h : l.mapM Whorl.fmt = some []) : l = [] := by
  cases l with
  | nil => rfl
  | cons w0 l0 =>
    obtain ⟨s0, ws0, hcon, _, _⟩ := mapM_whorl_cons h
    exact absurd hcon (by simp)

/-- Helper: segment-stop characters extend neither numbers, whorls, whorl
lists, ovary marks nor whorl starts. -/
theorem segStop_props : ∀ c : Char, isSegStop c = true →
    (c.isDigit = false ∧ c ≠ '-' ∧ c ≠ '•' ∧ c ≠ '+' ∧ isWhorlStart c = false
      ∧ c ≠ overline ∧ c ≠ lowline ∧ c ≠ '(') := by
  intro c hc
  simp only [isSegStop, Bool.or_eq_true, decide_eq_true_eq] at hc
  rcases hc with ((rfl | rfl) | rfl) | rfl <;>
    refine ⟨by decide, by decide, by decide, by decide, by decide, by decide, by decide, by decide⟩

/-- Helper: re-reading a rendered non-empty `+`-joined whorl list. -/
theorem readWhorls_spec : ∀ (fuel : Nat) (lw : List Whorl) (ws : List String)
    (rest : List Char), lw ≠ [] → lw.mapM Whorl.fmt = some ws → lw.length ≤ fuel →
    (∀ c, rest.head? = some c → (c.isDigit = false ∧ c ≠ '-' ∧ c ≠ '•' ∧ c ≠ '+')) →
    readWhorls fuel ((joinSep "+" ws).data ++ rest) = some (lw, rest) := by
  intro fuel lw
  induction lw generalizing fuel with
  | nil => intro ws rest hne; exact absurd rfl hne
  | cons w0 l0 ih =>
    intro ws rest _hne hm hfuel hrest
    obtain ⟨s0, ws0, rfl, hw0, hm0⟩ := mapM_whorl_cons hm
    cases fuel with
    | zero => simp at hfuel
    | succ fuel =>
      cases l0 with
      | nil =>
        have hws0 : ws0 = [] := by
          replace hm0 : (some [] : Option (List String)) = some ws0 := hm0
          exact (Option.some.inj hm0).symm
        subst hws0
        have hw := readWhorl_spec w0 s0 rest hw0 (fun c hc =>
          ⟨(hrest c hc).1, (hrest c hc).2.1, (hrest c hc).2.2.1⟩)
        rw [show joinSep "+" [s0] = s0 from rfl]
        simp only [readWhorls, hw]
        rw [if_neg (head_ne (fun c hc => (hrest c hc).2.2.2))]
      | cons w1 l1 =>
        obtain ⟨s1, ws1, rfl, hw1, hm1⟩ := mapM_whorl_cons hm0
        have hjoin : joinSep "+" (s0 :: s1 :: ws1) = s0 ++ "+" ++ joinSep "+" (s1 :: ws1) :=
          rfl
        have hdata : (joinSep "+" (s0 :: s1 :: ws1)).data ++ rest
            = s0.data ++ ('+' :: ((joinSep "+" (s1 :: ws1)).data ++ rest)) := by
          rw [hjoin]
          simp [String.data_append, List.append_assoc]
        have hw := readWhorl_spec w0 s0 ('+' :: ((joinSep "+" (s1 :: ws1)).data ++ rest)) hw0
          (fun c hc => by
            have hcc : c = '+' := (Option.some.inj hc).symm
            rw [hcc]
            exact ⟨by decide, by decide, by decide⟩)
        have hih := ih fuel (s1 :: ws1) rest (by simp) hm0 (by simpa using hfuel) hrest
        rw [hdata]
        simp only [readWhorls, hw]
        rw [if_pos (show (('+' :: ((joinSep "+" (s1 :: ws1)).data ++ rest)
          : List Char)).head? = some '+' by rfl), List.tail_cons]
        simp only [hih]

/-- Helper: a non-trivial join of rendered whorls has non-empty data. -/
theorem joinSep_cons_ne {s0 : String} (ws0 : List String) (hne : s0.data ≠ []) :
    (joinSep "+" (s0 :: ws0)).data ≠ [] := by
  intro hempty
  have h := joinSep_cons_head s0 ws0 hne
  rw [hempty] at h
  cases hd : s0.data with
  | nil => exact hne hd
  | cons a l => rw [hd] at h; simp at h

/-- Helper: skipping the ovary marks consumes exactly them when what
follows does not start with a mark. -/
theorem skipMarks_spec (o : Option Ovary) (X : List Char)
    (hX : ∀ c, X.head? = some c → (c ≠ overline ∧ c ≠ lowline)) :
    skipMarks (ovaryMarks o ++ X) = X := by
  have hall : ∀ c ∈ ovaryMarks o, (c = overline || c = lowline) = true := by
    intro c hc
    rcases o with _ | ov
    · simp [ovaryMarks] at hc
    · cases ov with
      | superior =>
        simp [ovaryMarks] at hc
        rw [hc]
        simp
      | inferior =>
        simp [ovaryMarks] at hc
        rw [hc]
        simp
      | both =>
        simp [ovaryMarks] at hc
        rcases hc with rfl | rfl <;> simp
  have hfail : ∀ c, X.head? = some c → ((c = overline || c = lowline) = false) := by
    intro c hc
    obtain ⟨h1, h2⟩ := hX c hc
    simp [h1, h2]
  exact (takeWhile_append_all hall hfail).2

/-- Helper: a rendered part letter followed by anything cannot start with
an opening parenthesis. -/
theorem part_append_head_ne_paren (p : Part) (X : List Char) :
    ¬(((p.fmt).data ++ X).head? = some '(') := by
  cases p <;> exact fun hcon => absurd (Option.some.inj hcon) (by decide)

/-- Helper: a rendered whorl join followed by non-mark characters does not
start with a combining mark. -/
theorem join_rest_head_not_marks {lw : List Whorl} {ws : List String}
    (hm : lw.mapM Whorl.fmt = some ws) (X : List Char)
    (hX : ∀ c, X.head? = some c → (c ≠ overline ∧ c ≠ lowline)) :
    ∀ c, ((joinSep "+" ws).data ++ X).head? = some c → (c ≠ overline ∧ c ≠ lowline) := by
  intro c hc
  cases lw with
  | nil =>
    have hws : ws = [] := by
      replace hm : (some [] : Option (List String)) = some ws := hm
      exact (Option.some.inj hm).symm
    subst hws
    exact hX c hc
  | cons w0 l0 =>
    obtain ⟨s0, ws0, rfl, hw0, _⟩ := mapM_whorl_cons hm
    obtain ⟨hne, hhead⟩ := whorl_fmt_head w0 s0 hw0
    rw [head?_append_of_ne (joinSep_cons_ne ws0 hne), joinSep_cons_head s0 ws0 hne] at hc
    rcases hhead c hc with rfl | h | rfl | rfl
    · exact ⟨by decide, by decide⟩
    · constructor
      · intro heq
        rw [heq] at h
        exact absurd h (by decide)
      · intro heq
        rw [heq] at h
        exact absurd h (by decide)
    · exact ⟨by decide, by decide⟩
    · exact ⟨by decide, by decide⟩

/-- Helper: the joined whorls of a rendered non-empty whorl list start
with a whorl-start character. -/
theorem headSat_whorlStart (w0 : Whorl) (s0 : String) (ws0 : List String) (X : List Char)
    (hw0 : Whorl.fmt w0 = some s0) :
    headSat isWhorlStart ((joinSep "+" (s0 :: ws0)).data ++ X) = true := by
  obtain ⟨hne, hhead⟩ := whorl_fmt_head w0 s0 hw0
  obtain ⟨c, hc⟩ : ∃ c, s0.data.head? = some c := by
    cases hd : s0.data with
    | nil => exact absurd hd hne
    | cons a l => exact ⟨a, rfl⟩
  have h1 : ((joinSep "+" (s0 :: ws0)).data ++ X).head? = some c := by
    rw [head?_append_of_ne (joinSep_cons_ne ws0 hne), joinSep_cons_head s0 ws0 hne, hc]
  simp only [headSat, h1]
  rcases hhead c hc with rfl | h | rfl | rfl
  · decide
  · simp [isWhorlStart, h]
  · decide
  · decide

/-- Helper: the whorl branch of the segment reader recovers exactly the
part's whorls. -/
theorem whorlsIf_spec (fuel : Nat) (lw : List Whorl) (ws : List String) (X : List Char)
    (hm : lw.mapM Whorl.fmt = some ws) (hfuel : lw.length ≤ fuel)
    (hX : ∀ c, X.head? = some c →
      (c.isDigit = false ∧ c ≠ '-' ∧ c ≠ '•' ∧ c ≠ '+' ∧ isWhorlStart c = false)) :
    (if headSat isWhorlStart ((joinSep "+" ws).data ++ X)
      then readWhorls fuel ((joinSep "+" ws).data ++ X)
      else some ([], (joinSep "+" ws).data ++ X)) = some (lw, X) := by
  cases lw with
  | nil =>
    have hws : ws = [] := by
      replace hm : (some [] : Option (List String)) = some ws := hm
      exact (Option.some.inj hm).symm
    subst hws
    have hfalse : headSat isWhorlStart (((joinSep "+" ([] : List String)).data ++ X)) = false := by
      show headSat isWhorlStart (([] : List Char) ++ X) = false
      rw [List.nil_append]
      cases hd : X.head? with
      | none => simp [headSat, hd]
      | some c => simp [headSat, hd, (hX c hd).2.2.2.2]
    rw [hfalse]
    show some ([], ([] : List Char) ++ X) = some (([] : List Whorl), X)
    rw [List.nil_append]
  | cons w0 l0 =>
    obtain ⟨s0, ws0, rfl, hw0, _⟩ := mapM_whorl_cons hm
    rw [headSat_whorlStart w0 s0 ws0 X hw0]
    show readWhorls fuel _ = _
    exact readWhorls_spec fuel (w0 :: l0) (s0 :: ws0) X (by simp) hm hfuel
      (fun c hc => ⟨(hX c hc).1, (hX c hc).2.1, (hX c hc).2.2.1, (hX c hc).2.2.2.1⟩)

/-- Helper: re-reading one rendered part segment recovers the shown
content, for any remainder starting with a segment-stop character. -/
theorem readSeg_spec (fuel : Nat) (fp : FloralPart) (s : String) (rest : List Char)
    (h : FloralPart.fmt fp = some s) (hfuel : fp.whorls.length ≤ fuel)
    (hrest : ∀ c, rest.head? = some c → isSegStop c = true) :
    readSeg fuel (s.data ++ rest) = some (fp.content, rest) := by
  rw [FloralPart.fmt] at h
  cases hm : fp.whorls.mapM Whorl.fmt with
  | none =>
    rw [hm] at h
    replace h : (Option.none : Option String) = some s := h
    simp at h
  | some ws =>
    rw [hm] at h
    replace h : (match fp.connate, fp.connation_variation with
      | true, true => some ("(" ++ (fp.letterWithOvary ++ joinSep "+" ws) ++ "]")
      | true, false => some ("(" ++ (fp.letterWithOvary ++ joinSep "+" ws) ++ ")")
      | false, _ => some (fp.letterWithOvary ++ joinSep "+" ws) : Option String) = some s := h
    have hprops := fun c hc => segStop_props c (hrest c hc)
    rcases hcn : fp.connate with _ | _ <;> rcases hcv : fp.connation_variation with _ | _ <;>
      rw [hcn, hcv] at h
    · -- not connate, no variation marker
      have heq : fp.letterWithOvary ++ joinSep "+" ws = s := by simpa using h
      subst heq
      have hdata : ((fp.letterWithOvary ++ joinSep "+" ws : String)).data ++ rest
          = (fp.part.fmt).data ++ (ovaryMarks fp.ovary ++ ((joinSep "+" ws).data ++ rest)) := by
        rw [String.data_append, letterWithOvary_data]
        simp [List.append_assoc]
      have hX : ∀ c, rest.head? = some c →
          (c.isDigit = false ∧ c ≠ '-' ∧ c ≠ '•' ∧ c ≠ '+' ∧ isWhorlStart c = false) := by
        intro c hc
        obtain ⟨h1, h2, h3, h4, h5, _, _, _⟩ := hprops c hc
        exact ⟨h1, h2, h3, h4, h5⟩
      have hmarks : skipMarks (ovaryMarks fp.ovary ++ ((joinSep "+" ws).data ++ rest))
          = (joinSep "+" ws).data ++ rest :=
        skipMarks_spec fp.ovary _ (join_rest_head_not_marks hm rest
          (fun c hc => ⟨(hprops c hc).2.2.2.2.2.1, (hprops c hc).2.2.2.2.2.2.1⟩))
      rw [hdata, readSeg, if_neg (part_append_head_ne_paren fp.part _),
        readLetter_spec fp.part _]
      simp only [hmarks, whorlsIf_spec fuel fp.whorls ws rest hm hfuel hX]
      simp [FloralPart.content, hcn, hcv]
    · -- not connate, variation dropped by the renderer
      have heq : fp.letterWithOvary ++ joinSep "+" ws = s := by simpa using h
      subst heq
      have hdata : ((fp.letterWithOvary ++ joinSep "+" ws : String)).data ++ rest
          = (fp.part.fmt).data ++ (ovaryMarks fp.ovary ++ ((joinSep "+" ws).data ++ rest)) := by
        rw [String.data_append, letterWithOvary_data]
        simp [List.append_assoc]
      have hX : ∀ c, rest.head? = some c →
          (c.isDigit = false ∧ c ≠ '-' ∧ c ≠ '•' ∧ c ≠ '+' ∧ isWhorlStart c = false) := by
        intro c hc
        obtain ⟨h1, h2, h3, h4, h5, _, _, _⟩ := hprops c hc
        exact ⟨h1, h2, h3, h4, h5⟩
      have hmarks : skipMarks (ovaryMarks fp.ovary ++ ((joinSep "+" ws).data ++ rest))
          = (joinSep "+" ws).data ++ rest :=
        skipMarks_spec fp.ovary _ (join_rest_head_not_marks hm rest
          (fun c hc => ⟨(hprops c hc).2.2.2.2.2.1, (hprops c hc).2.2.2.2.2.2.1⟩))
      rw [hdata, readSeg, if_neg (part_append_head_ne_paren fp.part _),
        readLetter_spec fp.part _]
      simp only [hmarks, whorlsIf_spec fuel fp.whorls ws rest hm hfuel hX]
      simp [FloralPart.content, hcn, hcv]
    · -- connate, no variation: wrapped in parentheses
      have heq : ("(" ++ (fp.letterWithOvary ++ joinSep "+" ws) ++ ")" : String) = s := by
        simpa using h
      subst heq
      have hdata : (("(" ++ (fp.letterWithOvary ++ joinSep "+" ws) ++ ")" : String)).data ++ rest
          = '(' :: ((fp.part.fmt).data
            ++ (ovaryMarks fp.ovary ++ ((joinSep "+" ws).data ++ (')' :: rest)))) := by
        rw [String.data_append, String.data_append, String.data_append, letterWithOvary_data]
        simp [List.append_assoc]
      have hX : ∀ c, ((')' : Char) :: rest).head? = some c →
          (c.isDigit = false ∧ c ≠ '-' ∧ c ≠ '•' ∧ c ≠ '+' ∧ isWhorlStart c = false) := by
        intro c hc
        have hcc : c = ')' := (Option.some.inj hc).symm
        rw [hcc]
        exact ⟨by decide, by decide, by decide, by decide, by decide⟩
      have hmarks : skipMarks (ovaryMarks fp.ovary ++ ((joinSep "+" ws).data ++ (')' :: rest)))
          = (joinSep "+" ws).data ++ (')' :: rest) :=
        skipMarks_spec fp.ovary _ (join_rest_head_not_marks hm (')' :: rest)
          (fun c hc => by
            have hcc : c = ')' := (Option.some.inj hc).symm
            rw [hcc]
            exact ⟨by decide, by decide⟩))
      rw [hdata, readSeg, if_pos (show (('(' :: ((fp.part.fmt).data
          ++ (ovaryMarks fp.ovary ++ ((joinSep "+" ws).data ++ (')' :: rest))))
          : List Char)).head? = some '(' by rfl), List.tail_cons,
        readLetter_spec fp.part _]
      simp only [hmarks, whorlsIf_spec fuel fp.whorls ws (')' :: rest) hm hfuel hX]
      rw [if_pos (show ((')' :: rest : List Char)).head? = some ')' by rfl), List.tail_cons]
      simp [FloralPart.content, hcn, hcv]
    · -- connate with variation: wrapped with the bracket closer
      have heq : ("(" ++ (fp.letterWithOvary ++ joinSep "+" ws) ++ "]" : String) = s := by
        simpa using h
      subst heq
      have hdata : (("(" ++ (fp.letterWithOvary ++ joinSep "+" ws) ++ "]" : String)).data ++ rest
          = '(' :: ((fp.part.fmt).data
            ++ (ovaryMarks fp.ovary ++ ((joinSep "+" ws).data ++ (']' :: rest)))) := by
        rw [String.data_append, String.data_append, String.data_append, letterWithOvary_data]
        simp [List.append_assoc]
      have hX : ∀ c, ((']' : Char) :: rest).head? = some c →
          (c.isDigit = false ∧ c ≠ '-' ∧ c ≠ '•' ∧ c ≠ '+' ∧ isWhorlStart c = false) := by
        intro c hc
        have hcc : c = ']' := (Option.some.inj hc).symm
        rw [hcc]
        exact ⟨by decide, by decide, by decide, by decide, by decide⟩
      have hmarks : skipMarks (ovaryMarks fp.ovary ++ ((joinSep "+" ws).data ++ (']' :: rest)))
          = (joinSep "+" ws).data ++ (']' :: rest) :=
        skipMarks_spec fp.ovary _ (join_rest_head_not_marks hm (']' :: rest)
          (fun c hc => by
            have hcc : c = ']' := (Option.some.inj hc).symm
            rw [hcc]
            exact ⟨by decide, by decide⟩))
      rw [hdata, readSeg, if_pos (show (('(' :: ((fp.part.fmt).data
          ++ (ovaryMarks fp.ovary ++ ((joinSep "+" ws).data ++ (']' :: rest))))
          : List Char)).head? = some '(' by rfl), List.tail_cons,
        readLetter_spec fp.part _]
      simp only [hmarks, whorlsIf_spec fuel fp.whorls ws (']' :: rest) hm hfuel hX]
      rw [if_neg (show ¬((']' :: rest : List Char)).head? = some ')' from
          fun hcon => absurd (Option.some.inj hcon) (by decide)),
        if_pos (show ((']' :: rest : List Char)).head? = some ']' by rfl), List.tail_cons]
      simp [FloralPart.content, hcn, hcv]

/-- Helper: a character outside both sides of an append is outside the
append. -/
theorem notMemAppend {c : Char} {l1 l2 : List Char} (h1 : c ∉ l1) (h2 : c ∉ l2) :
    c ∉ l1 ++ l2 := by
  intro hmem
  rcases List.mem_append.1 hmem with hm | hm
  exacts [h1 hm, h2 hm]

/-- Helper: a mapM-rendered whorl list is no longer than its `+`-join. -/
theorem whorls_le_join {lw : List Whorl} {ws : List String}
    (hm : lw.mapM Whorl.fmt = some ws) :
    lw.length ≤ (joinSep "+" ws).data.length := by
  induction lw generalizing ws with
  | nil =>
    replace hm : (some [] : Option (List String)) = some ws := hm
    rw [← Option.some.inj hm]
    exact Nat.le_refl 0
  | cons w0 l0 ih =>
    obtain ⟨s0, ws0, rfl, hw0, hm0⟩ := mapM_whorl_cons hm
    have hne := (whorl_fmt_head w0 s0 hw0).1
    cases l0 with
    | nil =>
      replace hm0 : (some [] : Option (List String)) = some ws0 := hm0
      rw [← Option.some.inj hm0]
      show (1 : Nat) ≤ (joinSep "+" [s0]).data.length
      exact List.length_pos.2 hne
    | cons w1 l1 =>
      obtain ⟨s1, ws1, rfl, hw1, hm1⟩ := mapM_whorl_cons hm0
      have hjoin : joinSep "+" (s0 :: s1 :: ws1) = s0 ++ "+" ++ joinSep "+" (s1 :: ws1) :=
        rfl
      have hstep : (joinSep "+" (s0 :: s1 :: ws1)).data
          = s0.data ++ ('+' :: (joinSep "+" (s1 :: ws1)).data) := by
        rw [hjoin]
        simp [String.data_append, List.append_assoc]
      have ih' := ih hm0
      rw [hstep]
      simp only [List.length_cons, List.length_append] at ih' ⊢
      omega

/-- Helper: a floral part has no more whorls than its rendering has
characters. -/
theorem whorls_le_fmt (fp : FloralPart) (s : String) (h : FloralPart.fmt fp = some s) :
    fp.whorls.length ≤ s.data.length := by
  rw [FloralPart.fmt] at h
  cases hm : fp.whorls.mapM Whorl.fmt with
  | none =>
    rw [hm] at h
    replace h : (Option.none : Option String) = some s := h
    simp at h
  | some ws =>
    rw [hm] at h
    replace h : (match fp.connate, fp.connation_variation with
      | true, true => some ("(" ++ (fp.letterWithOvary ++ joinSep "+" ws) ++ "]")
      | true, false => some ("(" ++ (fp.letterWithOvary ++ joinSep "+" ws) ++ ")")
      | false, _ => some (fp.letterWithOvary ++ joinSep "+" ws) : Option String) = some s := h
    have hj := whorls_le_join hm
    rcases hcn : fp.connate with _ | _ <;> rcases hcv : fp.connation_variation with _ | _ <;>
      rw [hcn, hcv] at h <;> rw [← Option.some.inj (by simpa using h : some _ = some s)] <;>
      simp only [String.data_append, List.length_append, List.length_cons] <;> omega

/-- Helper: a character absent from the separator and from every element
is absent from the join. -/
theorem joinSep_not_mem {c : Char} {sep : String} (hsep : c ∉ sep.data) :
    ∀ L : List String, (∀ s ∈ L, c ∉ s.data) → c ∉ (joinSep sep L).data := by
  intro L
  induction L with
  | nil =>
    intro _
    show c ∉ ("" : String).data
    exact List.not_mem_nil c
  | cons x xs ih =>
    intro hall
    cases xs with
    | nil => exact hall x (by simp)
    | cons y ys =>
      show c ∉ ((x ++ sep) ++ joinSep sep (y :: ys)).data
      rw [String.data_append, String.data_append]
      exact notMemAppend (notMemAppend (hall x (by simp)) hsep)
        (ih (fun s hs => hall s (by simp [hs])))

/-- Helper: rendered symmetry glyphs contain no comma and no newline. -/
theorem sym_fmt_chars (sy : Symmetry) :
    (',' : Char) ∉ (sy.fmt).data ∧ ('\n' : Char) ∉ (sy.fmt).data := by
  cases sy with
  | bilateral b => cases b <;> exact ⟨by decide, by decide⟩
  | radial => exact ⟨by decide, by decide⟩
  | asymmetry => exact ⟨by decide, by decide⟩
  | spiral => exact ⟨by decide, by decide⟩
  | disymmetric => exact ⟨by decide, by decide⟩

/-- Helper: the rendered symmetry prefix contains no comma and no
newline. -/
theorem symJoin_no (L : List Symmetry) :
    (',' : Char) ∉ (joinSep " or " (L.map Symmetry.fmt)).data ∧
      ('\n' : Char) ∉ (joinSep " or " (L.map Symmetry.fmt)).data := by
  constructor
  · refine joinSep_not_mem (by decide) _ (fun s hs => ?_)
    obtain ⟨sy, _, rfl⟩ := List.mem_map.1 hs
    exact (sym_fmt_chars sy).1
  · refine joinSep_not_mem (by decide) _ (fun s hs => ?_)
    obtain ⟨sy, _, rfl⟩ := List.mem_map.1 hs
    exact (sym_fmt_chars sy).2

/-- Helper: fruit names contain no newline. -/
theorem fruit_no_newline (fr : Fruit) : ('\n' : Char) ∉ (fr.fmt).data := by
  cases fr <;> decide

/-- Helper: the rendered fruit tail contains no newline. -/
theorem fruitTail_no_newline (L : List Fruit) :
    ('\n' : Char) ∉ ';' :: (joinSep "," (L.map Fruit.fmt)).data := by
  intro hmem
  rcases List.mem_cons.1 hmem with heq | hm
  · exact absurd heq (by decide)
  · refine joinSep_not_mem (by decide) _ (fun s hs => ?_) hm
    obtain ⟨fr, _, rfl⟩ := List.mem_map.1 hs
    exact fruit_no_newline fr

/-- Helper: rendered counts contain no newline. -/
theorem fpn_no_newline (x : FloralPartNumber) : ('\n' : Char) ∉ (x.fmt).data := by
  cases x with
  | finite u =>
    obtain ⟨_, hdig, _⟩ := repr_spec u
    intro hmem
    exact absurd (hdig _ hmem) (by decide)
  | fractional => decide
  | infinite => decide

/-- Helper: the sterility glyph is not a newline. -/
theorem sterile_no_newline (st : Sterile) : ('\n' : Char) ∉ (st.fmt).data := by
  cases st <;> decide

/-- Helper: a rendered whorl contains no newline. -/
theorem whorl_no_newline (w : Whorl) (s : String) (h : Whorl.fmt w = some s) :
    ('\n' : Char) ∉ s.data := by
  have hwrap : ∀ core : String, ('\n' : Char) ∉ core.data →
      Whorl.fmtWrap w core = some s → ('\n' : Char) ∉ s.data := by
    intro core hcore hw
    rw [Whorl.fmtWrap] at hw
    rcases hcn : w.connation with _ | _ <;> rcases hcv : w.connation_variation with _ | _ <;>
      rw [hcn, hcv] at hw
    · replace hw : some core = some s := hw
      rw [← Option.some.inj hw]
      exact hcore
    · replace hw : (Option.none : Option String) = some s := hw
      simp at hw
    · replace hw : some ("(" ++ core ++ ")") = some s := hw
      rw [← Option.some.inj hw, String.data_append, String.data_append]
      exact notMemAppend (notMemAppend (by decide) hcore) (by decide)
    · replace hw : some ("(" ++ core ++ "]") = some s := hw
      rw [← Option.some.inj hw, String.data_append, String.data_append]
      exact notMemAppend (notMemAppend (by decide) hcore) (by decide)
  rw [Whorl.fmt] at h
  rcases hn : w.number with _ | n <;> rcases hmi : w.min with _ | mi <;>
    rcases hma : w.max with _ | ma <;> rw [hn, hmi, hma] at h
  · simp at h
  · simp at h
  · simp at h
  · refine hwrap _ ?_ h
    rw [String.data_append, String.data_append, String.data_append]
    exact notMemAppend (notMemAppend (notMemAppend (fpn_no_newline mi) (by decide))
      (fpn_no_newline ma)) (sterile_no_newline w.sterile)
  · refine hwrap _ ?_ h
    rw [String.data_append]
    exact notMemAppend (fpn_no_newline n) (sterile_no_newline w.sterile)
  · simp at h
  · simp at h
  · simp at h

/-- Helper: every string of a mapM-rendered whorl list is some whorl's
rendering. -/
theorem mapM_whorl_mem : ∀ {lw : List Whorl} {ws : List String},
    lw.mapM Whorl.fmt = some ws → ∀ s, s ∈ ws → ∃ w, Whorl.fmt w = some s := by
  intro lw
  induction lw with
  | nil =>
    intro ws hm s hs
    replace hm : (some [] : Option (List String)) = some ws := hm
    rw [← Option.some.inj hm] at hs
    exact absurd hs (List.not_mem_nil s)
  | cons w0 l0 ih =>
    intro ws hm s hs
    obtain ⟨s0, ws0, rfl, hw0, hm0⟩ := mapM_whorl_cons hm
    rcases List.mem_cons.1 hs with rfl | hs2
    · exact ⟨w0, hw0⟩
    · exact ih hm0 s hs2

/-- Helper: a rendered floral part contains no newline. -/
theorem part_no_newline (fp : FloralPart) (s : String) (h : FloralPart.fmt fp = some s) :
    ('\n' : Char) ∉ s.data := by
  rw [FloralPart.fmt] at h
  cases hm : fp.whorls.mapM Whorl.fmt with
  | none =>
    rw [hm] at h
    replace h : (Option.none : Option String) = some s := h
    simp at h
  | some ws =>
    rw [hm] at h
    replace h : (match fp.connate, fp.connation_variation with
      | true, true => some ("(" ++ (fp.letterWithOvary ++ joinSep "+" ws) ++ "]")
      | true, false => some ("(" ++ (fp.letterWithOvary ++ joinSep "+" ws) ++ ")")
      | false, _ => some (fp.letterWithOvary ++ joinSep "+" ws) : Option String) = some s := h
    have hjoin : ('\n' : Char) ∉ (joinSep "+" ws).data := by
      refine joinSep_not_mem (by decide) _ (fun s' hs' => ?_)
      obtain ⟨w', hw'⟩ := mapM_whorl_mem hm s' hs'
      exact whorl_no_newline w' s' hw'
    have hlwo : ('\n' : Char) ∉ fp.letterWithOvary.data := by
      rw [letterWithOvary_data]
      refine notMemAppend (by cases fp.part <;> decide) ?_
      rcases fp.ovary with _ | ov
      · exact List.not_mem_nil _
      · cases ov <;> decide
    have hbody : ('\n' : Char) ∉ (fp.letterWithOvary ++ joinSep "+" ws).data := by
      rw [String.data_append]
      exact notMemAppend hlwo hjoin
    rcases hcn : fp.connate with _ | _ <;> rcases hcv : fp.connation_variation with _ | _ <;>
      rw [hcn, hcv] at h
    · rw [← Option.some.inj (by simpa using h : some _ = some s)]
      exact hbody
    · rw [← Option.some.inj (by simpa using h : some _ = some s)]
      exact hbody
    · rw [← Option.some.inj (by simpa using h : some _ = some s), String.data_append,
        String.data_append]
      exact notMemAppend (notMemAppend (by decide) hbody) (by decide)
    · rw [← Option.some.inj (by simpa using h : some _ = some s), String.data_append,
        String.data_append]
      exact notMemAppend (notMemAppend (by decide) hbody) (by decide)

/-- Helper: a comma-led concatenation of rendered segments over a
newline-free tail contains no newline. -/
theorem plainSegs_no_newline (ps : List (FloralPart × String)) (X : List Char)
    (hps : ∀ q ∈ ps, FloralPart.fmt q.1 = some q.2) (hX : ('\n' : Char) ∉ X) :
    ('\n' : Char) ∉ plainSegs ps X := by
  induction ps with
  | nil => exact hX
  | cons q r ih =>
    intro hmem
    replace hmem : ('\n' : Char) ∈ ',' :: ((q.2).data ++ plainSegs r X) := hmem
    rcases List.mem_cons.1 hmem with heq | hmem2
    · exact absurd heq (by decide)
    · rcases List.mem_append.1 hmem2 with hm | hm
      · exact part_no_newline q.1 q.2 (hps q (by simp)) hm
      · exact ih (fun q' hq' => hps q' (by simp [hq'])) hm

/-- Helper: a comma-led segment concatenation over a fruit-led tail starts
with a segment-stop character. -/
theorem plainSegs_head_stop (ps : List (FloralPart × String)) (X : List Char)
    (hX : X.head? = some ';') :
    ∀ c, (plainSegs ps X).head? = some c → isSegStop c = true := by
  intro c hc
  cases ps with
  | nil =>
    have hcc : c = ';' := by
      replace hc : X.head? = some c := hc
      rw [hX] at hc
      exact (Option.some.inj hc).symm
    rw [hcc]
    decide
  | cons q r =>
    have hcc : c = ',' := by
      replace hc : (',' :: ((q.2).data ++ plainSegs r X)).head? = some c := hc
      exact (Option.some.inj hc).symm
    rw [hcc]
    decide

/-- Helper: a list whose head is not `[` does not start with the `[or `
marker. -/
theorem take4_ne_or {R : List Char} {c : Char} (hR : R.head? = some c) (hc : c ≠ '[') :
    ¬(R.take 4 = ['[', 'o', 'r', ' ']) := by
  cases R with
  | nil => intro heq; simp at heq
  | cons a as =>
    intro heq
    replace heq : a :: as.take 3 = ['[', 'o', 'r', ' '] := heq
    have ha : a = '[' := (List.cons.inj heq).1
    have hac : a = c := Option.some.inj hR
    exact hc (by rw [← hac, ha])

/-- Helper: reading a comma-led concatenation of rendered segments up to
the fruit separator recovers exactly the shown contents. -/
theorem readSegs_plain : ∀ (k : Nat) (ps : List (FloralPart × String)) (X : List Char),
    (∀ q ∈ ps, FloralPart.fmt q.1 = some q.2) → X.head? = some ';' →
    (plainSegs ps X).length + 1 ≤ k →
    readSegs k (plainSegs ps X) = some (ps.map (fun q => FloralPart.content q.1)) := by
  intro k ps
  induction ps generalizing k with
  | nil =>
    intro X hps hX hk
    replace hk : X.length + 1 ≤ k := hk
    cases k with
    | zero => omega
    | succ k' =>
      show readSegs (k' + 1) X = some []
      rw [readSegs, hX]
      rw [if_neg (by decide), if_pos rfl]
  | cons q r ih =>
    intro X hps hX hk
    obtain ⟨fp, s⟩ := q
    replace hk : (',' :: (s.data ++ plainSegs r X)).length + 1 ≤ k := hk
    cases k with
    | zero => simp at hk
    | succ k' =>
      simp only [List.length_cons, List.length_append] at hk
      have hfmt : FloralPart.fmt fp = some s := hps (fp, s) (by simp)
      have hw : fp.whorls.length ≤ k' := le_trans (whorls_le_fmt fp s hfmt) (by omega)
      show readSegs (k' + 1) (',' :: (s.data ++ plainSegs r X)) = _
      rw [readSegs]
      rw [show ((',' :: (s.data ++ plainSegs r X) : List Char)).head? = some ',' from rfl,
        if_pos rfl,
        show ((',' :: (s.data ++ plainSegs r X) : List Char)).tail
          = s.data ++ plainSegs r X from rfl]
      have hseg := readSeg_spec k' fp s (plainSegs r X) hfmt hw (plainSegs_head_stop r X hX)
      simp only [hseg]
      have hhead : ∃ c, (plainSegs r X).head? = some c ∧ c ≠ '[' := by
        cases r with
        | nil => exact ⟨';', hX, by decide⟩
        | cons q2 r2 => exact ⟨',', rfl, by decide⟩
      obtain ⟨c, hc1, hc2⟩ := hhead
      rw [if_neg (take4_ne_or hc1 hc2)]
      simp only [ih k' X (fun q' hq' => hps q' (by simp [hq'])) hX (by omega)]
      rfl

/-- Helper: reading the three-part perianth alternative `,T...[or K...,C...]`
followed by plain segments recovers the three contents in order. -/
theorem readSegs_orshape (k : Nat) (t sk pc : FloralPart) (ts ss cs : String)
    (ps : List (FloralPart × String)) (X : List Char)
    (ht : FloralPart.fmt t = some ts) (hs : FloralPart.fmt sk = some ss)
    (hp : FloralPart.fmt pc = some cs)
    (hps : ∀ q ∈ ps, FloralPart.fmt q.1 = some q.2) (hX : X.head? = some ';')
    (hk : (',' :: (ts.data ++ ('[' :: 'o' :: 'r' :: ' ' ::
        (ss.data ++ (',' :: (cs.data ++ (']' :: plainSegs ps X))))))).length + 1 ≤ k) :
    readSegs k (',' :: (ts.data ++ ('[' :: 'o' :: 'r' :: ' ' ::
        (ss.data ++ (',' :: (cs.data ++ (']' :: plainSegs ps X)))))))
      = some (t.content :: sk.content :: pc.content
          :: ps.map (fun q => FloralPart.content q.1)) := by
  cases k with
  | zero => simp at hk
  | succ k' =>
    simp only [List.length_cons, List.length_append] at hk
    have hwt : t.whorls.length ≤ k' := le_trans (whorls_le_fmt t ts ht) (by omega)
    have hws : sk.whorls.length ≤ k' := le_trans (whorls_le_fmt sk ss hs) (by omega)
    have hwp : pc.whorls.length ≤ k' := le_trans (whorls_le_fmt pc cs hp) (by omega)
    rw [readSegs]
    rw [show ((',' :: (ts.data ++ ('[' :: 'o' :: 'r' :: ' ' ::
        (ss.data ++ (',' :: (cs.data ++ (']' :: plainSegs ps X)))))) : List Char)).head?
        = some ',' from rfl,
      if_pos rfl,
      show ((',' :: (ts.data ++ ('[' :: 'o' :: 'r' :: ' ' ::
        (ss.data ++ (',' :: (cs.data ++ (']' :: plainSegs ps X)))))) : List Char)).tail
        = ts.data ++ ('[' :: 'o' :: 'r' :: ' ' ::
          (ss.data ++ (',' :: (cs.data ++ (']' :: plainSegs ps X))))) from rfl]
    have hseg1 := readSeg_spec k' t ts ('[' :: 'o' :: 'r' :: ' ' ::
        (ss.data ++ (',' :: (cs.data ++ (']' :: plainSegs ps X))))) ht hwt
      (fun c hc => by
        have hcc : c = '[' := (Option.some.inj hc).symm
        rw [hcc]; decide)
    simp only [hseg1]
    rw [if_pos (show (('[' :: 'o' :: 'r' :: ' ' ::
        (ss.data ++ (',' :: (cs.data ++ (']' :: plainSegs ps X)))) : List Char)).take 4
        = ['[', 'o', 'r', ' '] from rfl),
      show (('[' :: 'o' :: 'r' :: ' ' ::
        (ss.data ++ (',' :: (cs.data ++ (']' :: plainSegs ps X)))) : List Char)).drop 4
        = ss.data ++ (',' :: (cs.data ++ (']' :: plainSegs ps X))) from rfl]
    have hseg2 := readSeg_spec k' sk ss (',' :: (cs.data ++ (']' :: plainSegs ps X))) hs hws
      (fun c hc => by
        have hcc : c = ',' := (Option.some.inj hc).symm
        rw [hcc]; decide)
    simp only [hseg2]
    rw [show ((',' :: (cs.data ++ (']' :: plainSegs ps X)) : List Char)).head?
        = some ',' from rfl,
      if_pos rfl,
      show ((',' :: (cs.data ++ (']' :: plainSegs ps X)) : List Char)).tail
        = cs.data ++ (']' :: plainSegs ps X) from rfl]
    have hseg3 := readSeg_spec k' pc cs (']' :: plainSegs ps X) hp hwp
      (fun c hc => by
        have hcc : c = ']' := (Option.some.inj hc).symm
        rw [hcc]; decide)
    simp only [hseg3]
    rw [show ((']' :: plainSegs ps X : List Char)).head? = some ']' from rfl,
      if_pos rfl,
      show ((']' :: plainSegs ps X : List Char)).tail = plainSegs ps X from rfl]
    simp only [readSegs_plain k' ps X hps hX (by omega)]

/-- Helper: the comma-led three-part perianth body over a newline-free
tail contains no newline. -/
theorem orBody_no_newline (t sk pc : FloralPart) (ts ss cs : String)
    (ps : List (FloralPart × String)) (X : List Char)
    (ht : FloralPart.fmt t = some ts) (hs : FloralPart.fmt sk = some ss)
    (hp : FloralPart.fmt pc = some cs)
    (hps : ∀ q ∈ ps, FloralPart.fmt q.1 = some q.2) (hX : ('\n' : Char) ∉ X) :
    ('\n' : Char) ∉ ',' :: (ts.data ++ ('[' :: 'o' :: 'r' :: ' ' ::
        (ss.data ++ (',' :: (cs.data ++ (']' :: plainSegs ps X)))))) := by
  intro hmem
  rcases List.mem_cons.1 hmem with heq | hm
  · exact absurd heq (by decide)
  rcases List.mem_append.1 hm with hm | hm
  · exact part_no_newline t ts ht hm
  rcases List.mem_cons.1 hm with heq | hm
  · exact absurd heq (by decide)
  rcases List.mem_cons.1 hm with heq | hm
  · exact absurd heq (by decide)
  rcases List.mem_cons.1 hm with heq | hm
  · exact absurd heq (by decide)
  rcases List.mem_cons.1 hm with heq | hm
  · exact absurd heq (by decide)
  rcases List.mem_append.1 hm with hm | hm
  · exact part_no_newline sk ss hs hm
  rcases List.mem_cons.1 hm with heq | hm
  · exact absurd heq (by decide)
  rcases List.mem_append.1 hm with hm | hm
  · exact part_no_newline pc cs hp hm
  rcases List.mem_cons.1 hm with heq | hm
  · exact absurd heq (by decide)
  exact plainSegs_no_newline ps X hps hX hm

/-- Helper: the rendered adnation suffix is empty or newline-led. -/
theorem adn_string_cases (A : String) :
    (if A = "" then "" else "\n" ++ A) = "" ∨
      ∀ c, ((if A = "" then "" else "\n" ++ A) : String).data.head? = some c → c = '\n' := by
  by_cases hA : A = ""
  · left
    rw [if_pos hA]
  · right
    rw [if_neg hA]
    intro c hc
    rw [String.data_append, head?_append_of_ne (by decide)] at hc
    exact (Option.some.inj (show some '\n' = some c from hc)).symm

/-- Helper: `takeWhile` keeps a list all of whose characters satisfy the
predicate. -/
theorem takeWhile_all {p : Char → Bool} : ∀ {l : List Char},
    (∀ c ∈ l, p c = true) → l.takeWhile p = l := by
  intro l
  induction l with
  | nil => intro _; rfl
  | cons a as ih =>
    intro h
    rw [List.takeWhile_cons, h a (List.mem_cons_self a as)]
    simp [ih (fun c hc => h c (List.mem_cons_of_mem a hc))]

/-- Helper: re-parsing a rendered line made of a comma-free symmetry
prefix, a comma-led newline-free body and an adnation suffix reduces to
reading the body's segments. -/
theorem reparseLine_split (out sym : String) (body : List Char) (ad : String)
    (hsym : (',' : Char) ∉ sym.data ∧ ('\n' : Char) ∉ sym.data)
    (hbody_nl : ('\n' : Char) ∉ body)
    (hbody_head : body.head? = some ',')
    (had : ad = "" ∨ ∀ c, ad.data.head? = some c → c = '\n')
    (hout : out.data = sym.data ++ (body ++ ad.data)) :
    reparseLine out = readSegs (sym.data.length + body.length + 1) body := by
  have hcut : out.data.takeWhile (fun c => c ≠ '\n') = sym.data ++ body := by
    rw [hout, ← List.append_assoc]
    rcases had with hempty | hnl
    · rw [hempty, show (("" : String)).data = ([] : List Char) from rfl, List.append_nil]
      refine takeWhile_all (fun c hc => ?_)
      simp only [decide_eq_true_eq]
      intro heq
      rw [heq] at hc
      exact notMemAppend hsym.2 hbody_nl hc
    · refine (takeWhile_append_all (fun c hc => ?_) (fun c hc => ?_)).1
      · simp only [decide_eq_true_eq]
        intro heq
        rw [heq] at hc
        exact notMemAppend hsym.2 hbody_nl hc
      · rw [hnl c hc]
        decide
  have hdrop : (sym.data ++ body).dropWhile (fun c => c ≠ ',') = body := by
    refine (takeWhile_append_all (fun c hc => ?_) (fun c hc => ?_)).2
    · simp only [decide_eq_true_eq]
      intro heq
      rw [heq] at hc
      exact hsym.1 hc
    · have hcc : c = ',' := by
        rw [hbody_head] at hc
        exact (Option.some.inj hc).symm
      rw [hcc]
      decide
  show readSegs ((out.data.takeWhile (fun c => c ≠ '\n')).length + 1)
      ((out.data.takeWhile (fun c => c ≠ '\n')).dropWhile (fun c => c ≠ ',')) = _
  rw [hcut, hdrop, List.length_append]

/-- Helper: core of the C3 argument — in the letter-marks-whorls-closer
decomposition of a rendered floral part, the first `1 + marks` characters
are the letter followed by the §4.5 marks, and the next character (when
present) is never a combining mark. -/
theorem c3_core (fp : FloralPart) (ws : List String) (close : List Char)
    (hm : fp.whorls.mapM Whorl.fmt = some ws)
    (hclose : close = [] ∨ close = [')'] ∨ close = [']']) :
    (((fp.letterWithOvary ++ joinSep "+" ws).data ++ close).take
        (1 + (ovaryMarks fp.ovary).length)
      = fp.part.fmt.data ++ ovaryMarks fp.ovary) ∧
    ∀ c, ((fp.letterWithOvary ++ joinSep "+" ws).data ++ close)[1
        + (ovaryMarks fp.ovary).length]? = some c →
      c ≠ overline ∧ c ≠ lowline := by
  have hA := letterWithOvary_data fp
  have hAlen : (fp.part.fmt.data ++ ovaryMarks fp.ovary).length
      = 1 + (ovaryMarks fp.ovary).length := by
    rw [List.length_append, part_fmt_length]
  constructor
  · rw [String.data_append, hA, List.append_assoc]
    exact List.take_left' hAlen
  · intro c hc
    rw [String.data_append, hA, List.append_assoc, ← hAlen,
      List.getElem?_append_right (Nat.le_refl _), Nat.sub_self,
      ← List.head?_eq_getElem?] at hc
    have hnext : c = '(' ∨ c.isDigit = true ∨ c = '½' ∨ c = '∞' ∨ c = ')' ∨ c = ']' := by
      rcases mapM_whorl_head hm with hws | ⟨w0, s0, ws0, hws, hw0⟩
      · subst hws
        rw [show (joinSep "+" ([] : List String)).data = [] from rfl, List.nil_append] at hc
        rcases hclose with rfl | rfl | rfl
        · simp at hc
        · rw [show (([')'] : List Char)).head? = some ')' from rfl] at hc
          exact Or.inr (Or.inr (Or.inr (Or.inr (Or.inl (Option.some.inj hc).symm))))
        · rw [show (([']'] : List Char)).head? = some ']' from rfl] at hc
          exact Or.inr (Or.inr (Or.inr (Or.inr (Or.inr (Option.some.inj hc).symm))))
      · subst hws
        obtain ⟨hs0ne, hs0head⟩ := whorl_fmt_head w0 s0 hw0
        have hjoin : (joinSep "+" (s0 :: ws0)).data ≠ [] := by
          intro hempty
          have := joinSep_cons_head s0 ws0 hs0ne
          rw [hempty] at this
          cases hd : s0.data with
          | nil => exact hs0ne hd
          | cons a l => rw [hd] at this; simp at this
        rw [head?_append_of_ne hjoin, joinSep_cons_head s0 ws0 hs0ne] at hc
        rcases hs0head c hc with h | h | h | h
        · exact Or.inl h
        · exact Or.inr (Or.inl h)
        · exact Or.inr (Or.inr (Or.inl h))
        · exact Or.inr (Or.inr (Or.inr (Or.inl h)))
    rcases hnext with rfl | hd | rfl | rfl | rfl | rfl
    · exact ⟨by decide, by decide⟩
    · constructor
      · intro heq
        rw [heq] at hd
        exact absurd hd (by decide)
      · intro heq
        rw [heq] at hd
        exact absurd hd (by decide)
    · exact ⟨by decide, by decide⟩
    · exact ⟨by decide, by decide⟩
    · exact ⟨by decide, by decide⟩
    · exact ⟨by decide, by decide⟩

/-- Claim C3: for every `FloralPart` whose rendering succeeds, the
rendered string — after the opening parenthesis when the part is connate —
begins with the part's base letter followed by exactly the claimed ovary
diacritics (Superior: combining low line U+0332 after the letter;
Inferior: combining overline U+0305; Both: overline then low line; unset:
the bare letter), and the character following that prefix, when present,
is never one of the two combining marks. -/
theorem c3_ovary_diacritic_order :
    ∀ (fp : FloralPart) (s : String), FloralPart.fmt fp = some s →
      ((s.data.drop (if fp.connate then 1 else 0)).take (1 + (ovaryMarks fp.ovary).length)
        = fp.part.fmt.data ++ ovaryMarks fp.ovary) ∧
      (∀ c, (s.data.drop (if fp.connate then 1 else 0))[1 + (ovaryMarks fp.ovary).length]?
          = some c → c ≠ overline ∧ c ≠ lowline) := by
  intro fp s h
  rw [FloralPart.fmt] at h
  cases hm : fp.whorls.mapM Whorl.fmt with
  | none =>
    rw [hm] at h
    replace h : (Option.none : Option String) = some s := h
    simp at h
  | some ws =>
    rw [hm] at h
    replace h : (match fp.connate, fp.connation_variation with
      | true, true => some ("(" ++ (fp.letterWithOvary ++ joinSep "+" ws) ++ "]")
      | true, false => some ("(" ++ (fp.letterWithOvary ++ joinSep "+" ws) ++ ")")
      | false, _ => some (fp.letterWithOvary ++ joinSep "+" ws) : Option String) = some s := h
    rcases hcn : fp.connate with _ | _ <;> rcases hcv : fp.connation_variation with _ | _ <;>
      rw [hcn, hcv] at h
    · have heq : fp.letterWithOvary ++ joinSep "+" ws = s := by simpa using h
      subst heq
      rw [if_neg (by simp [hcn])]
      have hcore := c3_core fp ws [] hm (Or.inl rfl)
      rw [List.append_nil] at hcore
      simpa using hcore
    · have heq : fp.letterWithOvary ++ joinSep "+" ws = s := by simpa using h
      subst heq
      rw [if_neg (by simp [hcn])]
      have hcore := c3_core fp ws [] hm (Or.inl rfl)
      rw [List.append_nil] at hcore
      simpa using hcore
    · have heq : ("(" ++ (fp.letterWithOvary ++ joinSep "+" ws) ++ ")" : String) = s := by
        simpa using h
      subst heq
      rw [if_pos (by simp [hcn])]
      have hdrop : (("(" ++ (fp.letterWithOvary ++ joinSep "+" ws) ++ ")" : String)).data.drop 1
          = (fp.letterWithOvary ++ joinSep "+" ws).data ++ [')'] := rfl
      rw [hdrop]
      exact c3_core fp ws [')'] hm (Or.inr (Or.inl rfl))
    · have heq : ("(" ++ (fp.letterWithOvary ++ joinSep "+" ws) ++ "]" : String) = s := by
        simpa using h
      subst heq
      rw [if_pos (by simp [hcn])]
      have hdrop : (("(" ++ (fp.letterWithOvary ++ joinSep "+" ws) ++ "]" : String)).data.drop 1
          = (fp.letterWithOvary ++ joinSep "+" ws).data ++ [']'] := rfl
      rw [hdrop]
      exact c3_core fp ws [']'] hm (Or.inr (Or.inr rfl))

/-- Claim C3, witness: a connate carpel part with a `Both` ovary renders
with `G` right after the opening parenthesis, followed by the overline and
then the low line, and the next character is the whorl digit. -/
theorem c3_witness :
    ((("(G" ++ cStr overline ++ cStr lowline ++ "2)" : String)).data.drop 1).take
        (1 + (ovaryMarks (some Ovary.both)).length)
      = (Part.carpels.fmt).data ++ ovaryMarks (some Ovary.both) := by
  have h := (c3_ovary_diacritic_order
    { part := Part.carpels, connate := true, connation_variation := false,
      whorls := [{ number := some (FloralPartNumber.finite 2), min := Option.none,
                   max := Option.none, sterile := Sterile.fertile,
                   connation := false, connation_variation := false }],
      ovary := some Ovary.both }
    ("(G" ++ cStr overline ++ cStr lowline ++ "2)") (by decide)).1
  simpa using h

/-- Claim C1, counterexample: the record with tepals and calyx present but
petals absent parses successfully — `floral_from_str` returns a `Formula`
and no `InvalidPerianth` error exists, contrary to the claim that parsing
fails. -/
theorem c1_counterexample :
    (floral_from_str "r" "2" "2" "-" "2" "2" "i" "berry" "-").toOption.isSome = true := by
  decide

/-- Helper: binding a successful `Except` computation reduces to the
continuation. -/
theorem fres_bind_ok {α β : Type} (a : α) (k : α → FResult β) :
    ((Except.ok a : FResult α) >>= k) = k a := rfl

/-- Helper: a successful `Except` bind decomposes into a successful first
step and a successful continuation. -/
theorem fres_bind_eq_ok {α β : Type} {m : FResult α} {k : α → FResult β} {b : β}
    (h : (m >>= k) = .ok b) : ∃ a, m = .ok a ∧ k a = .ok b := by
  cases m with
  | error e =>
    replace h : (Except.error e : FResult β) = .ok b := h
    exact Except.noConfusion h
  | ok a => exact ⟨a, rfl, h⟩

/-- Helper: a present (non-empty, non-`"-"`) floral-part field that parses
successfully parses to `Some` part — the `Ok(None)` early return happens
only for absent fields. -/
theorem parse_part_present_some (s : String) (p : Part) (o : Option Ovary)
    (r : Option FloralPart) (hne : s ≠ "") (hnd : s ≠ "-")
    (h : parse_floral_part_to_enum s p o = .ok r) : r.isSome = true := by
  rw [parse_floral_part_to_enum,
    if_neg (show ¬((s = "" || s = "-" : Bool) = true) by simp [hne, hnd])] at h
  obtain ⟨fl, hfl, h2⟩ := fres_bind_eq_ok h
  replace h2 : (Except.ok (some fl) : FResult (Option FloralPart)) = .ok r := h2
  rw [← Except.ok.inj h2]
  rfl

/-- Claim C1 (amended): `floral_from_str` performs no perianth validation
and no `InvalidPerianth` error exists — for every nine-field input whose
fields individually parse, with tepals and calyx present (non-empty, not
`"-"`) and petals empty or `"-"`, whole-record parsing succeeds and
returns a `Formula` with tepals and calyx set and petals unset, whose
perianth combination is invalid and whose rendering reaches the `Display`
panic (embedded as `none`); and every `Formula` whose presence combination
lies outside the three valid shapes is likewise rejected only at render
time. -/
theorem c1_invalid_perianth_accepted_at_parse_rejected_at_render :
    (∀ (symmetry tepals calyx petals anthers carpels ovary fruit adnation : String)
      {syms : List Symmetry} {ov : Option Ovary} {rt rs ra rg : Option FloralPart}
      {adn : Adnation} {frs : List Fruit},
      (splitOnChar ';' symmetry).mapM Symmetry.from_str = .ok syms →
      parse_ovary ovary = .ok ov →
      parse_floral_part_to_enum tepals Part.tepals Option.none = .ok rt →
      tepals ≠ "" → tepals ≠ "-" →
      parse_floral_part_to_enum calyx Part.calyx Option.none = .ok rs →
      calyx ≠ "" → calyx ≠ "-" →
      petals = "" ∨ petals = "-" →
      parse_floral_part_to_enum anthers Part.stamens Option.none = .ok ra →
      parse_floral_part_to_enum carpels Part.carpels ov = .ok rg →
      parse_adnation adnation = .ok adn →
      (splitOnChar ';' fruit).mapM Fruit.from_str = .ok frs →
      ∃ f : Formula,
        floral_from_str symmetry tepals calyx petals anthers carpels ovary fruit adnation
          = .ok f
        ∧ f.tepals.isSome = true ∧ f.sepals.isSome = true ∧ f.petals = Option.none
        ∧ validPerianthCombo f = false ∧ Formula.fmt f = Option.none) ∧
    (∀ f : Formula, validPerianthCombo f = false → Formula.fmt f = Option.none) := by
  constructor
  · intro symmetry tepals calyx petals anthers carpels ovary fruit adnation
      syms ov rt rs ra rg adn frs
      hsym hov htep htne htnd hcal hcne hcnd hpet hanth hcarp hadn hfr
    obtain ⟨tp, htp⟩ := Option.isSome_iff_exists.1
      (parse_part_present_some tepals Part.tepals Option.none rt htne htnd htep)
    obtain ⟨sp2, hsp2⟩ := Option.isSome_iff_exists.1
      (parse_part_present_some calyx Part.calyx Option.none rs hcne hcnd hcal)
    subst htp
    subst hsp2
    have hpp : parse_floral_part_to_enum petals Part.petals Option.none
        = .ok Option.none := by
      rcases hpet with rfl | rfl <;> rfl
    refine ⟨{ symmetry := syms, tepals := some tp, sepals := some sp2,
              petals := Option.none, stamens := ra, carpels := rg,
              fruit := frs, adnation := adn }, ?_, rfl, rfl, rfl, rfl, rfl⟩
    simp only [floral_from_str, fres_bind_ok, hsym, hov, htep, hcal, hpp, hanth,
      hcarp, hadn, hfr]
  · intro f h
    rcases ht : f.tepals with _ | t <;> rcases hp : f.petals with _ | p <;>
      rcases hs : f.sepals with _ | s <;>
      simp [validPerianthCombo, ht, hp, hs] at h <;>
      simp [Formula.fmt, ht, hp, hs]

/-- Claim C1, witness: at the record `r,2,2,-,2,2,i,berry,-` every field
parses, tepals and calyx are present, petals is `-`, and the theorem
yields the successful parse whose rendering is `none`; the all-empty
formula exercises the render-time half. -/
theorem c1_witness :
    (∃ f : Formula,
      floral_from_str "r" "2" "2" "-" "2" "2" "i" "berry" "-" = .ok f
      ∧ f.tepals.isSome = true ∧ f.sepals.isSome = true ∧ f.petals = Option.none
      ∧ validPerianthCombo f = false ∧ Formula.fmt f = Option.none) ∧
    Formula.fmt ({} : Formula) = Option.none :=
  ⟨c1_invalid_perianth_accepted_at_parse_rejected_at_render.1
      "r" "2" "2" "-" "2" "2" "i" "berry" "-"
      rfl rfl rfl (by decide) (by decide) rfl (by decide) (by decide) (Or.inr rfl)
      rfl rfl rfl rfl,
   c1_invalid_perianth_accepted_at_parse_rejected_at_render.2 {} (by decide)⟩

/-- Claim C2: rendering the parsed record `r,2,-,-,2,2,i,berry,-` yields a
single line in which the combining overline U+0305 appears immediately
AFTER the carpel letter `G` (the code emits `format!("{}{}", part, mark)`),
which differs from the claimed (and in-repo test-asserted) string in which
the overline precedes `G`. -/
theorem c2_overline_follows_letter :
    ((floral_from_str "r" "2" "-" "-" "2" "2" "i" "berry" "-").toOption.bind Formula.fmt
      = some ("*,T2,A2,G" ++ cStr overline ++ "2;berry")) ∧
    ("*,T2,A2,G" ++ cStr overline ++ "2;berry" : String)
      ≠ ("*,T2,A2," ++ cStr overline ++ "G2;berry" : String) := by
  exact ⟨by decide, by decide⟩

/-- Claim C5: on the record `r,2,2,2,2,2,i,berry,C;G` (adnation asserted
for Petals and Carpels in the `TepalsOrCalyxPetals` shape) the bracket
line opens at column 14 (fourteen leading spaces) although the petals
letter `C` sits at character offset 11 of the primary line (offset 14
holds a comma): the `[or ` prefix is double-counted when the petals column
is recorded. -/
theorem c5_petals_column_off_by_three :
    ((floral_from_str "r" "2" "2" "2" "2" "2" "i" "berry" "C;G").toOption.bind Formula.fmt
      = some ("*,T2[or K2,C2],A2,G" ++ cStr overline ++ "2;berry\n"
          ++ repeatChar 14 ' ' ++ "╰───╯")) ∧
    ("*,T2[or K2,C2],A2,G" ++ cStr overline ++ "2;berry").data[11]? = some 'C' ∧
    ("*,T2[or K2,C2],A2,G" ++ cStr overline ++ "2;berry").data[14]? = some ',' := by
  exact ⟨by decide, by decide, by decide⟩

/-- Claim C6, counterexample: the integer token `4294967296` (= 2^32) is
greater than 30, yet `FloralPartNumber` parsing returns the invalid-number
error instead of `Infinite`, because the underlying `u32` parse overflows. -/
theorem c6_counterexample :
    FloralPartNumber.from_str "4294967296" = .error (.parseIntKind
      ("invalid digit found in string. Found \"4294967296\", expected a number")) ∧
    FloralPartNumber.from_str "4294967296" ≠ .ok FloralPartNumber.infinite := by
  exact ⟨by decide, by decide⟩

/-- Claim C7, counterexample: the floral-part field token `2v` parses
successfully into a whorl with `connation_variation = true` and
`connation = false` — no `MalformedWhorl` construction-time error exists,
contrary to the claim. -/
theorem c7_counterexample :
    parse_floral_part_to_enum "2v" Part.tepals Option.none =
      .ok (some { part := Part.tepals, connate := false, connation_variation := false,
                  whorls := [{ number := some (FloralPartNumber.finite 2),
                               min := Option.none, max := Option.none,
                               sterile := Sterile.fertile,
                               connation := false, connation_variation := true }],
                  ovary := Option.none }) := by
  decide

/-- Claim C8, counterexample: the ovary field `s;s` has a single distinct
token value (Superior), yet `parse_ovary` resolves it to `Both`, because
the code tests the token count (`ov_vec.len() > 1`), not distinctness. -/
theorem c8_counterexample :
    parse_ovary "s;s" = .ok (some Ovary.both) ∧ Ovary.both ≠ Ovary.superior := by
  exact ⟨by decide, by decide⟩

/-- Claim C9, counterexample: the two valid records `r,2;v,-,-,2,2,i,berry,-`
and `r,2,-,-,2,2,i,berry,-` parse to formulas that differ in a fusion
marker (the tepals' part-level `connation_variation` flag) yet render to
byte-identical primary lines, so no re-parse of the rendered line can
recover the original fusion markers. -/
theorem c9_counterexample :
    ((floral_from_str "r" "2;v" "-" "-" "2" "2" "i" "berry" "-").toOption.bind Formula.fmt
      = some ("*,T2,A2,G" ++ cStr overline ++ "2;berry")) ∧
    ((floral_from_str "r" "2" "-" "-" "2" "2" "i" "berry" "-").toOption.bind Formula.fmt
      = some ("*,T2,A2,G" ++ cStr overline ++ "2;berry")) ∧
    ((floral_from_str "r" "2;v" "-" "-" "2" "2" "i" "berry" "-").toOption.map
        (fun f => f.tepals.map FloralPart.connation_variation) = some (some true)) ∧
    ((floral_from_str "r" "2" "-" "-" "2" "2" "i" "berry" "-").toOption.map
        (fun f => f.tepals.map FloralPart.connation_variation) = some (some false)) := by
  exact ⟨by decide, by decide, by decide, by decide⟩

/-- Helper: membership transported through `strContains`. -/
theorem strContains_iff_mem {s : String} {c : Char} :
    strContains s c = true ↔ c ∈ s.data := by
  simp [strContains, List.contains, List.elem_iff]

/-- Helper: stripping a different character preserves `strContains`. -/
theorem strContains_stripChar {s : String} {a b : Char} (h : b ≠ a) :
    strContains (stripChar s a) b = strContains s b := by
  cases hb : strContains s b with
  | true =>
    rw [strContains_iff_mem] at hb ⊢
    simp [stripChar, List.mem_filter, hb, h]
  | false =>
    rw [Bool.eq_false_iff] at hb ⊢
    intro hc
    exact hb (strContains_iff_mem.2 (List.mem_filter.1 (strContains_iff_mem.1 hc)).1)

/-- Helper: stripping an absent character is the identity. -/
theorem stripChar_of_not_contains {s : String} {c : Char}
    (h : strContains s c = false) : stripChar s c = s := by
  apply String.ext
  simp only [stripChar]
  apply List.filter_eq_self.2
  intro a ha
  simp only [decide_eq_true_eq, ne_eq]
  rintro rfl
  exact absurd (strContains_iff_mem.2 ha) (by simp [h])

/-- Helper: the conditional strip of the `any_contains_vars` loop equals
the unconditional strip (stripping an absent character is the identity). -/
theorem cond_strip_eq_strip (s : String) (c : Char) :
    (if strContains s c = true then stripChar s c else s) = stripChar s c := by
  cases h : strContains s c with
  | true => simp
  | false => simp [stripChar_of_not_contains h]

/-- Helper: `any_contains_vars` on a single token made only of `s`, `c`,
`v` characters yields the empty string and the three membership flags. -/
theorem any_contains_vars_single_scv (t : String)
    (hchars : ∀ c ∈ t.data, c = 's' ∨ c = 'c' ∨ c = 'v') :
    any_contains_vars [t]
      = ([""], (strContains t 's', strContains t 'c', strContains t 'v')) := by
  simp only [any_contains_vars, any_contains_vars_go, Bool.false_or, cond_strip_eq_strip]
  simp only [strContains_stripChar (show ('c' : Char) ≠ 's' by decide),
    strContains_stripChar (show ('v' : Char) ≠ 'c' by decide),
    strContains_stripChar (show ('v' : Char) ≠ 's' by decide)]
  have hnil : stripChar (stripChar (stripChar t 's') 'c') 'v' = "" := by
    apply String.ext
    show ((t.data.filter _).filter _).filter _ = ([] : List Char)
    rw [List.filter_eq_nil_iff]
    intro a ha
    have ha2 := List.mem_filter.1 ha
    have ha1 := List.mem_filter.1 ha2.1
    rcases hchars a ha1.1 with rfl | rfl | rfl
    · simpa using ha1.2
    · simpa using ha2.2
    · simp
  rw [hnil]

/-- Claim C10: a floral-part token that is not a range, not exactly `c` or
`v`, and consists only of the flag letters `s`, `c`, `v` makes the parser
append a whorl whose count is `Finite 0` with the corresponding flags set
(stripping the flags leaves the empty string, which parses as `Finite 0`);
in particular the field `2;s` produces a second, sterile whorl that
renders as `0•`. -/
theorem c10_flag_only_tokens_yield_zero_whorl :
    (∀ (floral : FloralPart) (t : String), t.data ≠ [] →
      (∀ c ∈ t.data, c = 's' ∨ c = 'c' ∨ c = 'v') → t ≠ "c" → t ≠ "v" →
      parse_token floral t = .ok (floral.add_whorl (Whorl.new
        (some (FloralPartNumber.finite 0)) Option.none Option.none
        (strContains t 's') (strContains t 'c') (strContains t 'v')))) ∧
    (parse_floral_part_to_enum "2;s" Part.stamens Option.none = .ok (some
      { part := Part.stamens, connate := false, connation_variation := false,
        whorls := [{ number := some (FloralPartNumber.finite 2), min := Option.none,
                     max := Option.none, sterile := Sterile.fertile,
                     connation := false, connation_variation := false },
                   { number := some (FloralPartNumber.finite 0), min := Option.none,
                     max := Option.none, sterile := Sterile.sterile,
                     connation := false, connation_variation := false }],
        ovary := Option.none })) ∧
    (Whorl.fmt { number := some (FloralPartNumber.finite 0), min := Option.none,
                 max := Option.none, sterile := Sterile.sterile,
                 connation := false, connation_variation := false } = some "0•") := by
  refine ⟨?_, by decide, by decide⟩
  intro floral t hne hchars hc hv
  have hdash : strContains t '-' = false := by
    rw [Bool.eq_false_iff]
    intro hd
    rcases hchars _ (strContains_iff_mem.1 hd) with h | h | h <;> simp at h
  rw [parse_token]
  simp only [hdash, Bool.false_eq_true, if_false, if_neg hc, if_neg hv,
    any_contains_vars_single_scv t hchars]
  rfl

/-- Claim C10, witness: the token `cs` appends a `Finite 0` whorl that is
both sterile and connate. -/
theorem c10_witness :
    parse_token {} "cs" = .ok (FloralPart.add_whorl {} (Whorl.new
      (some (FloralPartNumber.finite 0)) Option.none Option.none true true false)) := by
  have h := c10_flag_only_tokens_yield_zero_whorl.1 {} "cs" (by decide) (by decide)
    (by decide) (by decide)
  rw [show strContains "cs" 's' = true from by decide,
    show strContains "cs" 'c' = true from by decide,
    show strContains "cs" 'v' = false from by decide] at h
  exact h

/-- Claim C7 (amended): parsing accepts `connation_variation` without
`connation` — `Whorl::new` stores the flags unvalidated and the record
`r,2v,-,-,2,2,i,berry,-` parses successfully — and the violation surfaces
only at render time: a whorl with the combination makes `Display for
Whorl` panic (embedded `none`, so the whole-formula render of that record
is `none`), while a floral part with the combination renders with the
variation flag silently ignored. -/
theorem c7_violation_unchecked_until_render :
    (∀ w : Whorl, w.connation = false → w.connation_variation = true →
      Whorl.fmt w = Option.none) ∧
    (∀ fp : FloralPart, fp.connate = false →
      FloralPart.fmt fp = FloralPart.fmt { fp with connation_variation := false }) ∧
    (floral_from_str "r" "2v" "-" "-" "2" "2" "i" "berry" "-").toOption.isSome = true ∧
    ((floral_from_str "r" "2v" "-" "-" "2" "2" "i" "berry" "-").toOption.bind Formula.fmt
      = Option.none) := by
  refine ⟨?_, ?_, by decide, by decide⟩
  · intro w h1 h2
    rcases hn : w.number with _ | n <;> rcases hmi : w.min with _ | mi <;>
      rcases hma : w.max with _ | ma <;>
      simp [Whorl.fmt, Whorl.fmtWrap, hn, hmi, hma, h1, h2]
  · intro fp h
    simp [FloralPart.fmt, FloralPart.letterWithOvary, h]

/-- Claim C7, witness: a concrete violating whorl renders as `none`, and a
concrete floral part with the violating combination renders as if the
variation flag were unset. -/
theorem c7_witness :
    Whorl.fmt { number := some (FloralPartNumber.finite 1), min := Option.none,
                max := Option.none, sterile := Sterile.fertile,
                connation := false, connation_variation := true } = Option.none ∧
    FloralPart.fmt { part := Part.tepals, connate := false, connation_variation := true,
                     whorls := [], ovary := Option.none }
      = FloralPart.fmt { part := Part.tepals, connate := false, connation_variation := false,
                         whorls := [], ovary := Option.none } :=
  ⟨c7_violation_unchecked_until_render.1 _ rfl rfl,
   c7_violation_unchecked_until_render.2.1 _ rfl⟩

/-- Claim C8 (amended): an empty or `-` ovary field yields no ovary; a
field whose tokens all parse resolves to `Both` exactly when it has more
than one token — distinctness of the values plays no part (`s;s` is
`Both`) — a single-token field resolves to that token's value, and a field
containing an unparseable token fails with that token's unknown-ovary
error. -/
theorem c8_both_iff_multiple_tokens :
    (parse_ovary "" = .ok Option.none) ∧ (parse_ovary "-" = .ok Option.none) ∧
    (∀ s vs, s ≠ "" → s ≠ "-" →
      (splitOnChar ';' s).mapM Ovary.from_str = Except.ok vs →
      parse_ovary s = .ok (some (if vs.length > 1 then Ovary.both else vs.headD Ovary.both))) ∧
    (∀ s t v, s ≠ "" → s ≠ "-" → splitOnChar ';' s = [t] → Ovary.from_str t = .ok v →
      parse_ovary s = .ok (some v)) ∧
    (∀ s e, s ≠ "" → s ≠ "-" →
      (splitOnChar ';' s).mapM Ovary.from_str = Except.error e →
      parse_ovary s = .error e) := by
  refine ⟨by decide, by decide, ?_, ?_, ?_⟩
  · intro s vs h1 h2 h3
    simp only [parse_ovary, h1, h2]
    rw [h3]
    show (if vs.length > 1 then (Except.ok (some Ovary.both) : FResult (Option Ovary))
        else Except.ok (some (vs.headD Ovary.both)))
      = Except.ok (some (if vs.length > 1 then Ovary.both else vs.headD Ovary.both))
    by_cases hl : vs.length > 1
    · simp [hl]
    · simp [hl]
  · intro s t v h1 h2 hsplit hv
    have hm : List.mapM Ovary.from_str [t] = (Except.ok [v] : FResult (List Ovary)) := by
      show Except.bind (Ovary.from_str t) (fun b => Except.ok [b]) = Except.ok [v]
      rw [hv]
      rfl
    simp only [parse_ovary, h1, h2]
    rw [hsplit, hm]
    rfl
  · intro s e h1 h2 h3
    simp only [parse_ovary, h1, h2]
    rw [h3]
    rfl

/-- Claim C8, witness: `i;i` (two tokens, one distinct value) resolves to
`Both`; the single-token field `s` resolves to `Superior`. -/
theorem c8_witness :
    parse_ovary "i;i" = .ok (some Ovary.both) ∧
    parse_ovary "s" = .ok (some Ovary.superior) := by
  constructor
  · have h := c8_both_iff_multiple_tokens.2.2.1 "i;i" [Ovary.inferior, Ovary.inferior]
      (by decide) (by decide) (by decide)
    simpa using h
  · exact c8_both_iff_multiple_tokens.2.2.2.1 "s" "s" Ovary.superior
      (by decide) (by decide) (by decide) (by decide)

/-- Claim C6 (amended): `FloralPartNumber` parsing handles `-`, the empty
string, `inf` and `0.5` as specified; every token accepted by the `u32`
grammar (an optional leading `+` followed by decimal digits, value below
`2 ^ 32`) yields `Finite n` when `n ≤ 30` and `Infinite` when `n > 30`;
every other token — including digit strings whose value is at least
`2 ^ 32`, which overflow the `u32` parse — fails with the invalid-number
error. -/
theorem c6_number_parse_totality :
    (FloralPartNumber.from_str "-" = .ok (FloralPartNumber.finite 0)) ∧
    (FloralPartNumber.from_str "" = .ok (FloralPartNumber.finite 0)) ∧
    (FloralPartNumber.from_str "inf" = .ok FloralPartNumber.infinite) ∧
    (FloralPartNumber.from_str "0.5" = .ok FloralPartNumber.fractional) ∧
    (∀ s n, parseU32 s = some n → n ≤ 30 →
      FloralPartNumber.from_str s = .ok (FloralPartNumber.finite n)) ∧
    (∀ s n, parseU32 s = some n → 30 < n →
      FloralPartNumber.from_str s = .ok FloralPartNumber.infinite) ∧
    (∀ s, s ≠ "-" → s ≠ "" → s ≠ "inf" → s ≠ "0.5" → parseU32 s = Option.none →
      FloralPartNumber.from_str s = .error (.parseIntKind
        ("invalid digit found in string. Found \"" ++ s ++ "\", expected a number"))) := by
  have hspec : ∀ s n, parseU32 s = some n →
      s ≠ "-" ∧ s ≠ "" ∧ s ≠ "inf" ∧ s ≠ "0.5" := by
    intro s n hp
    refine ⟨?_, ?_, ?_, ?_⟩
    · rintro rfl
      rw [show parseU32 "-" = Option.none from by decide] at hp
      exact Option.noConfusion hp
    · rintro rfl
      rw [show parseU32 "" = Option.none from by decide] at hp
      exact Option.noConfusion hp
    · rintro rfl
      rw [show parseU32 "inf" = Option.none from by decide] at hp
      exact Option.noConfusion hp
    · rintro rfl
      rw [show parseU32 "0.5" = Option.none from by decide] at hp
      exact Option.noConfusion hp
  refine ⟨by decide, by decide, by decide, by decide, ?_, ?_, ?_⟩
  · intro s n hp hle
    obtain ⟨h1, h2, h3, h4⟩ := hspec s n hp
    simp [FloralPartNumber.from_str, h1, h2, h3, h4, hp, hle]
  · intro s n hp hlt
    obtain ⟨h1, h2, h3, h4⟩ := hspec s n hp
    simp [FloralPartNumber.from_str, h1, h2, h3, h4, hp, Nat.not_le.mpr hlt]
  · intro s h1 h2 h3 h4 hp
    simp [FloralPartNumber.from_str, h1, h2, h3, h4, hp]

/-- Helper: a character drawn from a `repeatChar` block is the repeated
character. -/
theorem repeatChar_mem {n : Nat} {ch c : Char} (h : c ∈ (repeatChar n ch).data) : c = ch :=
  List.eq_of_mem_replicate h

/-- Helper: the code's bracket loop (`adnGo`, truncating subtraction
`(x - 1) - prev`) coincides with the spec's reference loop (`specGo`,
`x - prev - 1`); the two `Nat` subtractions agree unconditionally. -/
theorem adnGo_eq_specGo (cs : List Char) :
    ∀ (prev : Nat) (l : List Nat), adnGo cs prev l = specGo cs prev l
  | _, [] => rfl
  | prev, [last] => by
    simp only [adnGo, specGo]
    have h : (last - 1) - prev = last - prev - 1 := by omega
    rw [h]
  | prev, x :: y :: ys => by
    simp only [adnGo, specGo]
    have h : (x - 1) - prev = x - prev - 1 := by omega
    rw [h, adnGo_eq_specGo cs x (y :: ys)]

/-- Helper: every character emitted by the reference loop is the fill,
close-right or junction glyph. -/
theorem specGo_chars (cs : List Char) :
    ∀ (prev : Nat) (l : List Nat) (c : Char), c ∈ (specGo cs prev l).data →
      c = cs.getD 1 ' ' ∨ c = cs.getD 2 ' ' ∨ c = cs.getD 3 ' '
  | prev, [], c => by
    intro h
    simp [specGo] at h
  | prev, [last], c => by
    intro h
    simp only [specGo, String.data_append] at h
    rcases List.mem_append.1 h with h | h
    · exact Or.inr (Or.inl (repeatChar_mem h))
    · left
      simpa [cStr] using h
  | prev, x :: y :: ys, c => by
    intro h
    simp only [specGo, String.data_append] at h
    rcases List.mem_append.1 h with h | h
    · rcases List.mem_append.1 h with h | h
      · exact Or.inr (Or.inl (repeatChar_mem h))
      · right; right
        simpa [cStr] using h
    · exact specGo_chars cs x (y :: ys) c h

/-- Helper: every character of the reference bracket line is a space or
one of the four glyphs of the character set. -/
theorem specBracketLine_chars (cs : List Char) (l : List Nat) (c : Char)
    (h : c ∈ (specBracketLine cs l).data) :
    c = ' ' ∨ c = cs.getD 0 ' ' ∨ c = cs.getD 1 ' ' ∨ c = cs.getD 2 ' '
      ∨ c = cs.getD 3 ' ' := by
  match l with
  | [] => simp [specBracketLine] at h
  | [_] => simp [specBracketLine] at h
  | [a, b] =>
    simp only [specBracketLine, String.data_append] at h
    rcases List.mem_append.1 h with h | h
    · rcases List.mem_append.1 h with h | h
      · rcases List.mem_append.1 h with h | h
        · exact Or.inl (repeatChar_mem h)
        · exact Or.inr (Or.inl (by simpa [cStr] using h))
      · exact Or.inr (Or.inr (Or.inr (Or.inl (repeatChar_mem h))))
    · exact Or.inr (Or.inr (Or.inl (by simpa [cStr] using h)))
  | a :: x :: y :: ys =>
    simp only [specBracketLine, String.data_append] at h
    rcases List.mem_append.1 h with h | h
    · rcases List.mem_append.1 h with h | h
      · exact Or.inl (repeatChar_mem h)
      · exact Or.inr (Or.inl (by simpa [cStr] using h))
    · rcases specGo_chars cs a (x :: y :: ys) c h with h | h | h
      · exact Or.inr (Or.inr (Or.inl h))
      · exact Or.inr (Or.inr (Or.inr (Or.inl h)))
      · exact Or.inr (Or.inr (Or.inr (Or.inr h)))

/-- Claim C4: for every recorded-column configuration with strictly
increasing columns, the adnation bracket line equals the spec §4.7
reference algorithm (0/1 columns render nothing; 2 columns render `a`
spaces, the open-left glyph, `b − a − 1` fill glyphs and the close-right
glyph; 3 or more columns render the leading spaces, open-left glyph, the
fill runs with junction glyphs at interior columns and the close-right
glyph at the last), and every character drawn is a space or belongs to
the single 4-glyph set selected by the variation flag. -/
theorem c4_bracket_line_matches_reference :
    ∀ ai : AdnationIndex, List.Chain' (· < ·) ai.mergedCols →
      (ai.fmt = specBracketLine (charSet ai.variation) ai.mergedCols ∧
       ∀ c ∈ ai.fmt.data, c = ' ' ∨ c ∈ charSet ai.variation) := by
  intro ai _hchain
  have heq : ai.fmt = specBracketLine (charSet ai.variation) ai.mergedCols := by
    simp only [AdnationIndex.fmt]
    rcases h : ai.mergedCols with _ | ⟨a, _ | ⟨b, _ | ⟨c, rest⟩⟩⟩
    · rfl
    · rfl
    · have hs : (b - 1) - a = b - a - 1 := by omega
      simp only [specBracketLine, hs]
    · simp only [specBracketLine, adnGo_eq_specGo]
  refine ⟨heq, ?_⟩
  intro c hc
  rw [heq] at hc
  have hmem : c ∈ charSet ai.variation ∨ c = ' ' := by
    rcases specBracketLine_chars _ _ _ hc with h | h | h | h | h
    · exact Or.inr h
    all_goals
      left
      cases hv : ai.variation <;> rw [hv] at h <;> rw [h] <;> decide
  tauto

/-- Claim C4, witness: the configuration of the in-repo test 3 (columns
2, 5, 8, invariant glyph set) satisfies the strict-increase hypothesis and
matches the reference algorithm. -/
theorem c4_witness :
    List.Chain' (· < ·) (AdnationIndex.mergedCols
      { variation := false, tepals := some 2, stamens := some 5, carpels := some 8 }) ∧
    AdnationIndex.fmt
      { variation := false, tepals := some 2, stamens := some 5, carpels := some 8 }
      = specBracketLine (charSet false) [2, 5, 8] := by
  constructor
  · show List.Chain' (· < ·) [2, 5, 8]
    simp [List.chain'_cons]
  · exact (c4_bracket_line_matches_reference
      { variation := false, tepals := some 2, stamens := some 5, carpels := some 8 }
      (by show List.Chain' (· < ·) [2, 5, 8]; simp [List.chain'_cons])).1

/-- Claim C6, witness: `45` parses under the `u32` grammar to 45 and
yields `Infinite`; `7` yields `Finite 7`. -/
theorem c6_witness :
    parseU32 "45" = some 45 ∧
    FloralPartNumber.from_str "45" = .ok FloralPartNumber.infinite ∧
    parseU32 "7" = some 7 ∧
    FloralPartNumber.from_str "7" = .ok (FloralPartNumber.finite 7) :=
  ⟨by decide,
   c6_number_parse_totality.2.2.2.2.2.1 "45" 45 (by decide) (by decide),
   by decide,
   c6_number_parse_totality.2.2.2.2.1 "7" 7 (by decide) (by decide)⟩

/-- Claim C9 (amended): for every formula whose rendering succeeds,
rendering is deterministic (the renderer is a function, so any two
successful renders agree), and re-parsing the rendered primary line
segment by segment — ignoring the bracket line — recovers the organ
letters, counts and the fusion markers as shown, where the part-level
connation-variation marker survives only on connate parts because the
renderer drops it on non-connate ones (`Floral.c9_counterexample`). -/
theorem c9_deterministic_render_and_content_roundtrip (f : Formula) (out : String)
    (h : Formula.fmt f = some out) :
    (∀ out2, Formula.fmt f = some out2 → out2 = out) ∧
    reparseLine out = some (Formula.normContent f) := by
  refine ⟨fun out2 h2 => by rw [h] at h2; exact (Option.some.inj h2).symm, ?_⟩
  rw [Formula.fmt] at h
  rcases ht : f.tepals with _ | t <;> rcases hpp : f.petals with _ | p <;>
      rcases hsp : f.sepals with _ | sp <;> rw [ht, hpp, hsp] at h
  · exact Option.noConfusion (show (Option.none : Option String) = some out from h)
  · exact Option.noConfusion (show (Option.none : Option String) = some out from h)
  · exact Option.noConfusion (show (Option.none : Option String) = some out from h)
  · -- calyx-and-petals shape
    obtain ⟨trip1, h1, h⟩ := Option.bind_eq_some.1 h
    obtain ⟨ss, hss, h1b⟩ := Option.bind_eq_some.1 h1
    obtain ⟨ps2, hps2, h1c⟩ := Option.bind_eq_some.1 h1b
    rw [← Option.some.inj h1c] at h
    rcases hst : f.stamens with _ | a <;> rcases hcar : f.carpels with _ | g <;>
        rw [hst, hcar] at h
    · obtain ⟨A, hA⟩ : ∃ A : String,
          joinSep " or " (f.symmetry.map Symmetry.fmt)
            ++ (("," ++ ss) ++ ("," ++ ps2)) ++ "" ++ ""
            ++ (";" ++ joinSep "," (f.fruit.map Fruit.fmt))
            ++ (if A = "" then "" else "\n" ++ A) = out := ⟨_, Option.some.inj h⟩
      have hps : ∀ q ∈ [(sp, ss), (p, ps2)], FloralPart.fmt q.1 = some q.2 := by
        intro q hq
        rcases List.mem_cons.1 hq with rfl | hq
        · exact hss
        rcases List.mem_cons.1 hq with rfl | hq
        · exact hps2
        · exact absurd hq (List.not_mem_nil q)
      have hout : out.data = (joinSep " or " (f.symmetry.map Symmetry.fmt)).data
          ++ (plainSegs [(sp, ss), (p, ps2)]
                (';' :: (joinSep "," (f.fruit.map Fruit.fmt)).data)
              ++ (if A = "" then "" else "\n" ++ A).data) := by
        rw [← hA]
        simp [plainSegs, String.data_append, List.append_assoc]
      rw [reparseLine_split out (joinSep " or " (f.symmetry.map Symmetry.fmt))
          (plainSegs [(sp, ss), (p, ps2)]
            (';' :: (joinSep "," (f.fruit.map Fruit.fmt)).data))
          (if A = "" then "" else "\n" ++ A)
          (symJoin_no f.symmetry)
          (plainSegs_no_newline _ _ hps (fruitTail_no_newline f.fruit))
          rfl (adn_string_cases A) hout]
      rw [readSegs_plain _ [(sp, ss), (p, ps2)]
          (';' :: (joinSep "," (f.fruit.map Fruit.fmt)).data) hps rfl (by omega)]
      simp [Formula.normContent, ht, hpp, hsp, hst, hcar]
    · obtain ⟨trip2, h2, h⟩ := Option.bind_eq_some.1 h
      rw [← Option.some.inj h2] at h
      obtain ⟨pair3, h3, h⟩ := Option.bind_eq_some.1 h
      obtain ⟨gs, htg, h3b⟩ := Option.bind_eq_some.1 h3
      rw [← Option.some.inj h3b] at h
      obtain ⟨A, hA⟩ : ∃ A : String,
          joinSep " or " (f.symmetry.map Symmetry.fmt)
            ++ (("," ++ ss) ++ ("," ++ ps2)) ++ "" ++ ("," ++ gs)
            ++ (";" ++ joinSep "," (f.fruit.map Fruit.fmt))
            ++ (if A = "" then "" else "\n" ++ A) = out := ⟨_, Option.some.inj h⟩
      have hps : ∀ q ∈ [(sp, ss), (p, ps2), (g, gs)], FloralPart.fmt q.1 = some q.2 := by
        intro q hq
        rcases List.mem_cons.1 hq with rfl | hq
        · exact hss
        rcases List.mem_cons.1 hq with rfl | hq
        · exact hps2
        rcases List.mem_cons.1 hq with rfl | hq
        · exact htg
        · exact absurd hq (List.not_mem_nil q)
      have hout : out.data = (joinSep " or " (f.symmetry.map Symmetry.fmt)).data
          ++ (plainSegs [(sp, ss), (p, ps2), (g, gs)]
                (';' :: (joinSep "," (f.fruit.map Fruit.fmt)).data)
              ++ (if A = "" then "" else "\n" ++ A).data) := by
        rw [← hA]
        simp [plainSegs, String.data_append, List.append_assoc]
      rw [reparseLine_split out (joinSep " or " (f.symmetry.map Symmetry.fmt))
          (plainSegs [(sp, ss), (p, ps2), (g, gs)]
            (';' :: (joinSep "," (f.fruit.map Fruit.fmt)).data))
          (if A = "" then "" else "\n" ++ A)
          (symJoin_no f.symmetry)
          (plainSegs_no_newline _ _ hps (fruitTail_no_newline f.fruit))
          rfl (adn_string_cases A) hout]
      rw [readSegs_plain _ [(sp, ss), (p, ps2), (g, gs)]
          (';' :: (joinSep "," (f.fruit.map Fruit.fmt)).data) hps rfl (by omega)]
      simp [Formula.normContent, ht, hpp, hsp, hst, hcar]
    · obtain ⟨trip2, h2, h⟩ := Option.bind_eq_some.1 h
      obtain ⟨as_, hta, h2b⟩ := Option.bind_eq_some.1 h2
      rw [← Option.some.inj h2b] at h
      obtain ⟨A, hA⟩ : ∃ A : String,
          joinSep " or " (f.symmetry.map Symmetry.fmt)
            ++ (("," ++ ss) ++ ("," ++ ps2)) ++ ("," ++ as_) ++ ""
            ++ (";" ++ joinSep "," (f.fruit.map Fruit.fmt))
            ++ (if A = "" then "" else "\n" ++ A) = out := ⟨_, Option.some.inj h⟩
      have hps : ∀ q ∈ [(sp, ss), (p, ps2), (a, as_)], FloralPart.fmt q.1 = some q.2 := by
        intro q hq
        rcases List.mem_cons.1 hq with rfl | hq
        · exact hss
        rcases List.mem_cons.1 hq with rfl | hq
        · exact hps2
        rcases List.mem_cons.1 hq with rfl | hq
        · exact hta
        · exact absurd hq (List.not_mem_nil q)
      have hout : out.data = (joinSep " or " (f.symmetry.map Symmetry.fmt)).data
          ++ (plainSegs [(sp, ss), (p, ps2), (a, as_)]
                (';' :: (joinSep "," (f.fruit.map Fruit.fmt)).data)
              ++ (if A = "" then "" else "\n" ++ A).data) := by
        rw [← hA]
        simp [plainSegs, String.data_append, List.append_assoc]
      rw [reparseLine_split out (joinSep " or " (f.symmetry.map Symmetry.fmt))
          (plainSegs [(sp, ss), (p, ps2), (a, as_)]
            (';' :: (joinSep "," (f.fruit.map Fruit.fmt)).data))
          (if A = "" then "" else "\n" ++ A)
          (symJoin_no f.symmetry)
          (plainSegs_no_newline _ _ hps (fruitTail_no_newline f.fruit))
          rfl (adn_string_cases A) hout]
      rw [readSegs_plain _ [(sp, ss), (p, ps2), (a, as_)]
          (';' :: (joinSep "," (f.fruit.map Fruit.fmt)).data) hps rfl (by omega)]
      simp [Formula.normContent, ht, hpp, hsp, hst, hcar]
    · obtain ⟨trip2, h2, h⟩ := Option.bind_eq_some.1 h
      obtain ⟨as_, hta, h2b⟩ := Option.bind_eq_some.1 h2
      rw [← Option.some.inj h2b] at h
      obtain ⟨pair3, h3, h⟩ := Option.bind_eq_some.1 h
      obtain ⟨gs, htg, h3b⟩ := Option.bind_eq_some.1 h3
      rw [← Option.some.inj h3b] at h
      obtain ⟨A, hA⟩ : ∃ A : String,
          joinSep " or " (f.symmetry.map Symmetry.fmt)
            ++ (("," ++ ss) ++ ("," ++ ps2)) ++ ("," ++ as_) ++ ("," ++ gs)
            ++ (";" ++ joinSep "," (f.fruit.map Fruit.fmt))
            ++ (if A = "" then "" else "\n" ++ A) = out := ⟨_, Option.some.inj h⟩
      have hps : ∀ q ∈ [(sp, ss), (p, ps2), (a, as_), (g, gs)],
          FloralPart.fmt q.1 = some q.2 := by
        intro q hq
        rcases List.mem_cons.1 hq with rfl | hq
        · exact hss
        rcases List.mem_cons.1 hq with rfl | hq
        · exact hps2
        rcases List.mem_cons.1 hq with rfl | hq
        · exact hta
        rcases List.mem_cons.1 hq with rfl | hq
        · exact htg
        · exact absurd hq (List.not_mem_nil q)
      have hout : out.data = (joinSep " or " (f.symmetry.map Symmetry.fmt)).data
          ++ (plainSegs [(sp, ss), (p, ps2), (a, as_), (g, gs)]
                (';' :: (joinSep "," (f.fruit.map Fruit.fmt)).data)
              ++ (if A = "" then "" else "\n" ++ A).data) := by
        rw [← hA]
        simp [plainSegs, String.data_append, List.append_assoc]
      rw [reparseLine_split out (joinSep " or " (f.symmetry.map Symmetry.fmt))
          (plainSegs [(sp, ss), (p, ps2), (a, as_), (g, gs)]
            (';' :: (joinSep "," (f.fruit.map Fruit.fmt)).data))
          (if A = "" then "" else "\n" ++ A)
          (symJoin_no f.symmetry)
          (plainSegs_no_newline _ _ hps (fruitTail_no_newline f.fruit))
          rfl (adn_string_cases A) hout]
      rw [readSegs_plain _ [(sp, ss), (p, ps2), (a, as_), (g, gs)]
          (';' :: (joinSep "," (f.fruit.map Fruit.fmt)).data) hps rfl (by omega)]
      simp [Formula.normContent, ht, hpp, hsp, hst, hcar]
  · -- tepals-only shape
    obtain ⟨trip1, h1, h⟩ := Option.bind_eq_some.1 h
    obtain ⟨ts, hts, h1b⟩ := Option.bind_eq_some.1 h1
    rw [← Option.some.inj h1b] at h
    rcases hst : f.stamens with _ | a <;> rcases hcar : f.carpels with _ | g <;>
        rw [hst, hcar] at h
    · obtain ⟨A, hA⟩ : ∃ A : String,
          joinSep " or " (f.symmetry.map Symmetry.fmt) ++ ("," ++ ts) ++ "" ++ ""
            ++ (";" ++ joinSep "," (f.fruit.map Fruit.fmt))
            ++ (if A = "" then "" else "\n" ++ A) = out := ⟨_, Option.some.inj h⟩
      have hps : ∀ q ∈ [(t, ts)], FloralPart.fmt q.1 = some q.2 := by
        intro q hq
        rcases List.mem_cons.1 hq with rfl | hq
        · exact hts
        · exact absurd hq (List.not_mem_nil q)
      have hout : out.data = (joinSep " or " (f.symmetry.map Symmetry.fmt)).data
          ++ (plainSegs [(t, ts)] (';' :: (joinSep "," (f.fruit.map Fruit.fmt)).data)
              ++ (if A = "" then "" else "\n" ++ A).data) := by
        rw [← hA]
        simp [plainSegs, String.data_append, List.append_assoc]
      rw [reparseLine_split out (joinSep " or " (f.symmetry.map Symmetry.fmt))
          (plainSegs [(t, ts)] (';' :: (joinSep "," (f.fruit.map Fruit.fmt)).data))
          (if A = "" then "" else "\n" ++ A)
          (symJoin_no f.symmetry)
          (plainSegs_no_newline _ _ hps (fruitTail_no_newline f.fruit))
          rfl (adn_string_cases A) hout]
      rw [readSegs_plain _ [(t, ts)] (';' :: (joinSep "," (f.fruit.map Fruit.fmt)).data)
          hps rfl (by omega)]
      simp [Formula.normContent, ht, hpp, hsp, hst, hcar]
    · obtain ⟨trip2, h2, h⟩ := Option.bind_eq_some.1 h
      rw [← Option.some.inj h2] at h
      obtain ⟨pair3, h3, h⟩ := Option.bind_eq_some.1 h
      obtain ⟨gs, htg, h3b⟩ := Option.bind_eq_some.1 h3
      rw [← Option.some.inj h3b] at h
      obtain ⟨A, hA⟩ : ∃ A : String,
          joinSep " or " (f.symmetry.map Symmetry.fmt) ++ ("," ++ ts) ++ "" ++ ("," ++ gs)
            ++ (";" ++ joinSep "," (f.fruit.map Fruit.fmt))
            ++ (if A = "" then "" else "\n" ++ A) = out := ⟨_, Option.some.inj h⟩
      have hps : ∀ q ∈ [(t, ts), (g, gs)], FloralPart.fmt q.1 = some q.2 := by
        intro q hq
        rcases List.mem_cons.1 hq with rfl | hq
        · exact hts
        rcases List.mem_cons.1 hq with rfl | hq
        · exact htg
        · exact absurd hq (List.not_mem_nil q)
      have hout : out.data = (joinSep " or " (f.symmetry.map Symmetry.fmt)).data
          ++ (plainSegs [(t, ts), (g, gs)]
                (';' :: (joinSep "," (f.fruit.map Fruit.fmt)).data)
              ++ (if A = "" then "" else "\n" ++ A).data) := by
        rw [← hA]
        simp [plainSegs, String.data_append, List.append_assoc]
      rw [reparseLine_split out (joinSep " or " (f.symmetry.map Symmetry.fmt))
          (plainSegs [(t, ts), (g, gs)]
            (';' :: (joinSep "," (f.fruit.map Fruit.fmt)).data))
          (if A = "" then "" else "\n" ++ A)
          (symJoin_no f.symmetry)
          (plainSegs_no_newline _ _ hps (fruitTail_no_newline f.fruit))
          rfl (adn_string_cases A) hout]
      rw [readSegs_plain _ [(t, ts), (g, gs)]
          (';' :: (joinSep "," (f.fruit.map Fruit.fmt)).data) hps rfl (by omega)]
      simp [Formula.normContent, ht, hpp, hsp, hst, hcar]
    · obtain ⟨trip2, h2, h⟩ := Option.bind_eq_some.1 h
      obtain ⟨as_, hta, h2b⟩ := Option.bind_eq_some.1 h2
      rw [← Option.some.inj h2b] at h
      obtain ⟨A, hA⟩ : ∃ A : String,
          joinSep " or " (f.symmetry.map Symmetry.fmt) ++ ("," ++ ts) ++ ("," ++ as_) ++ ""
            ++ (";" ++ joinSep "," (f.fruit.map Fruit.fmt))
            ++ (if A = "" then "" else "\n" ++ A) = out := ⟨_, Option.some.inj h⟩
      have hps : ∀ q ∈ [(t, ts), (a, as_)], FloralPart.fmt q.1 = some q.2 := by
        intro q hq
        rcases List.mem_cons.1 hq with rfl | hq
        · exact hts
        rcases List.mem_cons.1 hq with rfl | hq
        · exact hta
        · exact absurd hq (List.not_mem_nil q)
      have hout : out.data = (joinSep " or " (f.symmetry.map Symmetry.fmt)).data
          ++ (plainSegs [(t, ts), (a, as_)]
                (';' :: (joinSep "," (f.fruit.map Fruit.fmt)).data)
              ++ (if A = "" then "" else "\n" ++ A).data) := by
        rw [← hA]
        simp [plainSegs, String.data_append, List.append_assoc]
      rw [reparseLine_split out (joinSep " or " (f.symmetry.map Symmetry.fmt))
          (plainSegs [(t, ts), (a, as_)]
            (';' :: (joinSep "," (f.fruit.map Fruit.fmt)).data))
          (if A = "" then "" else "\n" ++ A)
          (symJoin_no f.symmetry)
          (plainSegs_no_newline _ _ hps (fruitTail_no_newline f.fruit))
          rfl (adn_string_cases A) hout]
      rw [readSegs_plain _ [(t, ts), (a, as_)]
          (';' :: (joinSep "," (f.fruit.map Fruit.fmt)).data) hps rfl (by omega)]
      simp [Formula.normContent, ht, hpp, hsp, hst, hcar]
    · obtain ⟨trip2, h2, h⟩ := Option.bind_eq_some.1 h
      obtain ⟨as_, hta, h2b⟩ := Option.bind_eq_some.1 h2
      rw [← Option.some.inj h2b] at h
      obtain ⟨pair3, h3, h⟩ := Option.bind_eq_some.1 h
      obtain ⟨gs, htg, h3b⟩ := Option.bind_eq_some.1 h3
      rw [← Option.some.inj h3b] at h
      obtain ⟨A, hA⟩ : ∃ A : String,
          joinSep " or " (f.symmetry.map Symmetry.fmt) ++ ("," ++ ts)
            ++ ("," ++ as_) ++ ("," ++ gs)
            ++ (";" ++ joinSep "," (f.fruit.map Fruit.fmt))
            ++ (if A = "" then "" else "\n" ++ A) = out := ⟨_, Option.some.inj h⟩
      have hps : ∀ q ∈ [(t, ts), (a, as_), (g, gs)], FloralPart.fmt q.1 = some q.2 := by
        intro q hq
        rcases List.mem_cons.1 hq with rfl | hq
        · exact hts
        rcases List.mem_cons.1 hq with rfl | hq
        · exact hta
        rcases List.mem_cons.1 hq with rfl | hq
        · exact htg
        · exact absurd hq (List.not_mem_nil q)
      have hout : out.data = (joinSep " or " (f.symmetry.map Symmetry.fmt)).data
          ++ (plainSegs [(t, ts), (a, as_), (g, gs)]
                (';' :: (joinSep "," (f.fruit.map Fruit.fmt)).data)
              ++ (if A = "" then "" else "\n" ++ A).data) := by
        rw [← hA]
        simp [plainSegs, String.data_append, List.append_assoc]
      rw [reparseLine_split out (joinSep " or " (f.symmetry.map Symmetry.fmt))
          (plainSegs [(t, ts), (a, as_), (g, gs)]
            (';' :: (joinSep "," (f.fruit.map Fruit.fmt)).data))
          (if A = "" then "" else "\n" ++ A)
          (symJoin_no f.symmetry)
          (plainSegs_no_newline _ _ hps (fruitTail_no_newline f.fruit))
          rfl (adn_string_cases A) hout]
      rw [readSegs_plain _ [(t, ts), (a, as_), (g, gs)]
          (';' :: (joinSep "," (f.fruit.map Fruit.fmt)).data) hps rfl (by omega)]
      simp [Formula.normContent, ht, hpp, hsp, hst, hcar]
  · exact Option.noConfusion (show (Option.none : Option String) = some out from h)
  · exact Option.noConfusion (show (Option.none : Option String) = some out from h)
  · -- three-part `[or ...]` shape
    obtain ⟨trip1, h1, h⟩ := Option.bind_eq_some.1 h
    obtain ⟨ts, hts, h1b⟩ := Option.bind_eq_some.1 h1
    obtain ⟨ss, hss, h1c⟩ := Option.bind_eq_some.1 h1b
    obtain ⟨ps2, hps2, h1d⟩ := Option.bind_eq_some.1 h1c
    rw [← Option.some.inj h1d] at h
    rcases hst : f.stamens with _ | a <;> rcases hcar : f.carpels with _ | g <;>
        rw [hst, hcar] at h
    · obtain ⟨A, hA⟩ : ∃ A : String,
          joinSep " or " (f.symmetry.map Symmetry.fmt)
            ++ (("," ++ ts) ++ ("[or " ++ ss) ++ ("," ++ ps2 ++ "]")) ++ "" ++ ""
            ++ (";" ++ joinSep "," (f.fruit.map Fruit.fmt))
            ++ (if A = "" then "" else "\n" ++ A) = out := ⟨_, Option.some.inj h⟩
      have hps : ∀ q ∈ ([] : List (FloralPart × String)), FloralPart.fmt q.1 = some q.2 :=
        fun q hq => absurd hq (List.not_mem_nil q)
      have hout : out.data = (joinSep " or " (f.symmetry.map Symmetry.fmt)).data
          ++ ((',' :: (ts.data ++ ('[' :: 'o' :: 'r' :: ' ' :: (ss.data ++ (',' :: (ps2.data ++
                (']' :: plainSegs []
                  (';' :: (joinSep "," (f.fruit.map Fruit.fmt)).data))))))))
              ++ (if A = "" then "" else "\n" ++ A).data) := by
        rw [← hA]
        simp [plainSegs, String.data_append, List.append_assoc]
      rw [reparseLine_split out (joinSep " or " (f.symmetry.map Symmetry.fmt))
          (',' :: (ts.data ++ ('[' :: 'o' :: 'r' :: ' ' :: (ss.data ++ (',' :: (ps2.data ++
              (']' :: plainSegs []
                (';' :: (joinSep "," (f.fruit.map Fruit.fmt)).data))))))))
          (if A = "" then "" else "\n" ++ A)
          (symJoin_no f.symmetry)
          (orBody_no_newline t sp p ts ss ps2 []
            (';' :: (joinSep "," (f.fruit.map Fruit.fmt)).data) hts hss hps2 hps
            (fruitTail_no_newline f.fruit))
          rfl (adn_string_cases A) hout]
      rw [readSegs_orshape _ t sp p ts ss ps2 []
          (';' :: (joinSep "," (f.fruit.map Fruit.fmt)).data) hts hss hps2 hps rfl (by omega)]
      simp [Formula.normContent, ht, hpp, hsp, hst, hcar]
    · obtain ⟨trip2, h2, h⟩ := Option.bind_eq_some.1 h
      rw [← Option.some.inj h2] at h
      obtain ⟨pair3, h3, h⟩ := Option.bind_eq_some.1 h
      obtain ⟨gs, htg, h3b⟩ := Option.bind_eq_some.1 h3
      rw [← Option.some.inj h3b] at h
      obtain ⟨A, hA⟩ : ∃ A : String,
          joinSep " or " (f.symmetry.map Symmetry.fmt)
            ++ (("," ++ ts) ++ ("[or " ++ ss) ++ ("," ++ ps2 ++ "]")) ++ "" ++ ("," ++ gs)
            ++ (";" ++ joinSep "," (f.fruit.map Fruit.fmt))
            ++ (if A = "" then "" else "\n" ++ A) = out := ⟨_, Option.some.inj h⟩
      have hps : ∀ q ∈ [(g, gs)], FloralPart.fmt q.1 = some q.2 := by
        intro q hq
        rcases List.mem_cons.1 hq with rfl | hq
        · exact htg
        · exact absurd hq (List.not_mem_nil q)
      have hout : out.data = (joinSep " or " (f.symmetry.map Symmetry.fmt)).data
          ++ ((',' :: (ts.data ++ ('[' :: 'o' :: 'r' :: ' ' :: (ss.data ++ (',' :: (ps2.data ++
                (']' :: plainSegs [(g, gs)]
                  (';' :: (joinSep "," (f.fruit.map Fruit.fmt)).data))))))))
              ++ (if A = "" then "" else "\n" ++ A).data) := by
        rw [← hA]
        simp [plainSegs, String.data_append, List.append_assoc]
      rw [reparseLine_split out (joinSep " or " (f.symmetry.map Symmetry.fmt))
          (',' :: (ts.data ++ ('[' :: 'o' :: 'r' :: ' ' :: (ss.data ++ (',' :: (ps2.data ++
              (']' :: plainSegs [(g, gs)]
                (';' :: (joinSep "," (f.fruit.map Fruit.fmt)).data))))))))
          (if A = "" then "" else "\n" ++ A)
          (symJoin_no f.symmetry)
          (orBody_no_newline t sp p ts ss ps2 [(g, gs)]
            (';' :: (joinSep "," (f.fruit.map Fruit.fmt)).data) hts hss hps2 hps
            (fruitTail_no_newline f.fruit))
          rfl (adn_string_cases A) hout]
      rw [readSegs_orshape _ t sp p ts ss ps2 [(g, gs)]
          (';' :: (joinSep "," (f.fruit.map Fruit.fmt)).data) hts hss hps2 hps rfl (by omega)]
      simp [Formula.normContent, ht, hpp, hsp, hst, hcar]
    · obtain ⟨trip2, h2, h⟩ := Option.bind_eq_some.1 h
      obtain ⟨as_, hta, h2b⟩ := Option.bind_eq_some.1 h2
      rw [← Option.some.inj h2b] at h
      obtain ⟨A, hA⟩ : ∃ A : String,
          joinSep " or " (f.symmetry.map Symmetry.fmt)
            ++ (("," ++ ts) ++ ("[or " ++ ss) ++ ("," ++ ps2 ++ "]")) ++ ("," ++ as_) ++ ""
            ++ (";" ++ joinSep "," (f.fruit.map Fruit.fmt))
            ++ (if A = "" then "" else "\n" ++ A) = out := ⟨_, Option.some.inj h⟩
      have hps : ∀ q ∈ [(a, as_)], FloralPart.fmt q.1 = some q.2 := by
        intro q hq
        rcases List.mem_cons.1 hq with rfl | hq
        · exact hta
        · exact absurd hq (List.not_mem_nil q)
      have hout : out.data = (joinSep " or " (f.symmetry.map Symmetry.fmt)).data
          ++ ((',' :: (ts.data ++ ('[' :: 'o' :: 'r' :: ' ' :: (ss.data ++ (',' :: (ps2.data ++
                (']' :: plainSegs [(a, as_)]
                  (';' :: (joinSep "," (f.fruit.map Fruit.fmt)).data))))))))
              ++ (if A = "" then "" else "\n" ++ A).data) := by
        rw [← hA]
        simp [plainSegs, String.data_append, List.append_assoc]
      rw [reparseLine_split out (joinSep " or " (f.symmetry.map Symmetry.fmt))
          (',' :: (ts.data ++ ('[' :: 'o' :: 'r' :: ' ' :: (ss.data ++ (',' :: (ps2.data ++
              (']' :: plainSegs [(a, as_)]
                (';' :: (joinSep "," (f.fruit.map Fruit.fmt)).data))))))))
          (if A = "" then "" else "\n" ++ A)
          (symJoin_no f.symmetry)
          (orBody_no_newline t sp p ts ss ps2 [(a, as_)]
            (';' :: (joinSep "," (f.fruit.map Fruit.fmt)).data) hts hss hps2 hps
            (fruitTail_no_newline f.fruit))
          rfl (adn_string_cases A) hout]
      rw [readSegs_orshape _ t sp p ts ss ps2 [(a, as_)]
          (';' :: (joinSep "," (f.fruit.map Fruit.fmt)).data) hts hss hps2 hps rfl (by omega)]
      simp [Formula.normContent, ht, hpp, hsp, hst, hcar]
    · obtain ⟨trip2, h2, h⟩ := Option.bind_eq_some.1 h
      obtain ⟨as_, hta, h2b⟩ := Option.bind_eq_some.1 h2
      rw [← Option.some.inj h2b] at h
      obtain ⟨pair3, h3, h⟩ := Option.bind_eq_some.1 h
      obtain ⟨gs, htg, h3b⟩ := Option.bind_eq_some.1 h3
      rw [← Option.some.inj h3b] at h
      obtain ⟨A, hA⟩ : ∃ A : String,
          joinSep " or " (f.symmetry.map Symmetry.fmt)
            ++ (("," ++ ts) ++ ("[or " ++ ss) ++ ("," ++ ps2 ++ "]"))
            ++ ("," ++ as_) ++ ("," ++ gs)
            ++ (";" ++ joinSep "," (f.fruit.map Fruit.fmt))
            ++ (if A = "" then "" else "\n" ++ A) = out := ⟨_, Option.some.inj h⟩
      have hps : ∀ q ∈ [(a, as_), (g, gs)], FloralPart.fmt q.1 = some q.2 := by
        intro q hq
        rcases List.mem_cons.1 hq with rfl | hq
        · exact hta
        rcases List.mem_cons.1 hq with rfl | hq
        · exact htg
        · exact absurd hq (List.not_mem_nil q)
      have hout : out.data = (joinSep " or " (f.symmetry.map Symmetry.fmt)).data
          ++ ((',' :: (ts.data ++ ('[' :: 'o' :: 'r' :: ' ' :: (ss.data ++ (',' :: (ps2.data ++
                (']' :: plainSegs [(a, as_), (g, gs)]
                  (';' :: (joinSep "," (f.fruit.map Fruit.fmt)).data))))))))
              ++ (if A = "" then "" else "\n" ++ A).data) := by
        rw [← hA]
        simp [plainSegs, String.data_append, List.append_assoc]
      rw [reparseLine_split out (joinSep " or " (f.symmetry.map Symmetry.fmt))
          (',' :: (ts.data ++ ('[' :: 'o' :: 'r' :: ' ' :: (ss.data ++ (',' :: (ps2.data ++
              (']' :: plainSegs [(a, as_), (g, gs)]
                (';' :: (joinSep "," (f.fruit.map Fruit.fmt)).data))))))))
          (if A = "" then "" else "\n" ++ A)
          (symJoin_no f.symmetry)
          (orBody_no_newline t sp p ts ss ps2 [(a, as_), (g, gs)]
            (';' :: (joinSep "," (f.fruit.map Fruit.fmt)).data) hts hss hps2 hps
            (fruitTail_no_newline f.fruit))
          rfl (adn_string_cases A) hout]
      rw [readSegs_orshape _ t sp p ts ss ps2 [(a, as_), (g, gs)]
          (';' :: (joinSep "," (f.fruit.map Fruit.fmt)).data) hts hss hps2 hps rfl (by omega)]
      simp [Formula.normContent, ht, hpp, hsp, hst, hcar]

/-- Claim C9, witness: the formula `*,T2;berry` (radial symmetry, a single
tepal whorl of two, one fruit) renders successfully, and re-parsing the
rendered line recovers its content. -/
theorem c9_witness :
    reparseLine "*,T2;berry" = some (Formula.normContent
      { symmetry := [Symmetry.radial],
        tepals := some { whorls :=
          [⟨some (FloralPartNumber.finite 2), Option.none, Option.none,
            Sterile.fertile, false, false⟩] },
        fruit := [Fruit.berry] }) :=
  (c9_deterministic_render_and_content_roundtrip
    { symmetry := [Symmetry.radial],
      tepals := some { whorls :=
        [⟨some (FloralPartNumber.finite 2), Option.none, Option.none,
          Sterile.fertile, false, false⟩] },
      fruit := [Fruit.berry] } "*,T2;berry" (by decide)).2

end Floral
